import Mathlib

/-!
Verification of the 2048 core engine
(`src/games/twenty_forty_eight/game.py` of the `tiled_games` repository).

The game grid is modelled row-major as `List (List Int)`: entry `r` is row
`r` of the board, and entry `c` of that row is the value of the tile at
column `c`, row `r`.  The `Grid` container class itself lives outside the
analysed sources; its accessors (`get`, `set`, `get_row`, `get_col`,
`get_adjacent`) are modelled from the spec, as marked on each definition.
All other definitions are translated from `game.py` directly.
-/

namespace TwentyFortyEight

/-- The `SlideDirection` enum from `game.py`. -/
inductive SlideDirection where
  | NONE
  | UP
  | RIGHT
  | DOWN
  | LEFT
deriving DecidableEq

/-- Auxiliary recursion for `ArrayHelper.first_non_zero_index`: scan from
position `i`, returning the index of the first non-zero entry, `-1` if none. -/
def firstNonZeroAux : List Int → Int → Int
  | [], _ => -1
  | x :: r, i => if x ≠ 0 then i else firstNonZeroAux r (i + 1)

/-- `ArrayHelper.first_non_zero_index(array)` (with the default
`start_index = 0`): index of the first non-zero element, `-1` when the whole
array is zero. -/
def first_non_zero_index (a : List Int) : Int := firstNonZeroAux a 0

/-- The scanning loop of `Game._slide_helper`, sliding toward index 0.
Arguments: `root` is `config.root_tile_value`; the first list argument is the
part of `l_copy` not yet visited; `i` is the index of its head inside
`l_copy`; `nl` and `mv` are the `new_list` and `movement` buffers; `ni` is
`new_index`; `s` accumulates the score increment of this slide.

The Python loop runs `i` over `range(start_index, len(l_copy))` where
`start_index = first_non_zero_index(l_copy)`.  Iterations at indices before
the first non-zero entry read a zero and `continue`, so running from index 0
is equivalent; when the line is all zero, `start_index` is `-1` and the extra
iteration reads `l_copy[-1]` — the last entry, which is zero — and also
`continue`s.  Both facts are proved against the literal loop `slidePyIter`
below (`slidePy_eq_slideCore`). -/
def slideGo (root : Int) : List Int → Nat → List Int → List Int → Nat → Int →
    List Int × List Int × Int
  | [], _, nl, mv, _, s => (nl, mv, s)
  | x :: rest, i, nl, mv, ni, s =>
    if x = 0 then slideGo root rest (i + 1) nl mv ni s
    else if x = nl.getD ni 0 then
      slideGo root rest (i + 1) (nl.set ni (nl.getD ni 0 * root))
        (mv.set i ((ni : Int) - (i : Int))) (ni + 1) (s + x * root)
    else if nl.getD ni 0 = 0 then
      slideGo root rest (i + 1) (nl.set ni x)
        (mv.set i ((ni : Int) - (i : Int))) ni s
    else
      slideGo root rest (i + 1) (nl.set (ni + 1) x)
        (mv.set i ((ni : Int) + 1 - (i : Int))) (ni + 1) s

/-- The direction-normalized core of `Game._slide_helper`: slide the line
`l` toward index 0.  Returns (`new_list`, `movement`, score increment). -/
def slideCore (root : Int) (l : List Int) : List Int × List Int × Int :=
  slideGo root l 0 (List.replicate l.length 0) (List.replicate l.length 0) 0 0

/-- `Game._slide_helper(direction, row_o_col)`: reverse the line for
`DOWN`/`RIGHT`, run the core loop, then reverse the result and negate+reverse
the movement vector.  Returns (`new_list`, `movement`, score increment). -/
def slide_helper (root : Int) (dir : SlideDirection) (l : List Int) :
    List Int × List Int × Int :=
  let lc := if dir = SlideDirection.DOWN ∨ dir = SlideDirection.RIGHT
    then l.reverse else l
  let res := slideCore root lc
  if dir = SlideDirection.DOWN ∨ dir = SlideDirection.RIGHT then
    (res.1.reverse, (res.2.1.reverse).map (fun o => -o), res.2.2)
  else
    (res.1, res.2.1, res.2.2)

/-- Modelled from the spec: the `Grid` collaborator's `get_row(row)`;
the grid is stored row-major, so row `r` of the board. -/
def get_row (g : List (List Int)) (r : Nat) : List Int := g.getD r []

/-- Modelled from the spec: the `Grid` collaborator's `get_col(col)`:
the sequence of values at column `c`, read row by row. -/
def get_col (g : List (List Int)) (c : Nat) : List Int :=
  g.map (fun row => row.getD c 0)

/-- Modelled from the spec: the `Grid` collaborator's `get(col, row)`:
the value stored at column `c` of row `r`. -/
def grid_get (g : List (List Int)) (c r : Nat) : Int := (g.getD r []).getD c 0

/-- Modelled from the spec: the `Grid` collaborator's `set(col, row, v)`:
replace the value at column `c` of row `r`. -/
def grid_set (g : List (List Int)) (c r : Nat) (v : Int) : List (List Int) :=
  g.set r ((g.getD r []).set c v)

/-- The length of the shortest row, i.e. the number of tuples produced by
Python's `zip(*array)` (zero for an empty array). -/
def minLen (a : List (List Int)) : Nat :=
  match a.map List.length with
  | [] => 0
  | x :: xs => xs.foldl Nat.min x

/-- `ArrayHelper.transpose_columns(array)`, i.e. `zip(*array)`: row `j` of
the result collects entry `j` of every row of `a`; the number of rows is the
length of the shortest row of `a`. -/
def transpose_columns (a : List (List Int)) : List (List Int) :=
  (List.range (minLen a)).map (fun j => a.map (fun row => row.getD j 0))

/-- `Game.slide_each_row(direction)`: slide every row, collecting the new
values, the movement matrix and the total score increment. -/
def slide_each_row (root : Int) (n : Nat) (dir : SlideDirection)
    (g : List (List Int)) : List (List Int) × List (List Int) × Int :=
  let results := (List.range n).map (fun r => slide_helper root dir (get_row g r))
  (results.map (fun p => p.1), results.map (fun p => p.2.1),
    (results.map (fun p => p.2.2)).sum)

/-- `Game.slide_each_column(direction)`: slide every column, then transpose
the per-column results back into board orientation. -/
def slide_each_column (root : Int) (n : Nat) (dir : SlideDirection)
    (g : List (List Int)) : List (List Int) × List (List Int) × Int :=
  let results := (List.range n).map (fun c => slide_helper root dir (get_col g c))
  (transpose_columns (results.map (fun p => p.1)),
    transpose_columns (results.map (fun p => p.2.1)),
    (results.map (fun p => p.2.2)).sum)

/-- The grid/movement/score computation of `Game.slide_tiles(direction)`:
columns for `UP`/`DOWN`, rows otherwise.  `n` is `config.grid_size`. -/
def slide_tiles (root : Int) (n : Nat) (dir : SlideDirection)
    (g : List (List Int)) : List (List Int) × List (List Int) × Int :=
  if dir = SlideDirection.UP ∨ dir = SlideDirection.DOWN then
    slide_each_column root n dir g
  else
    slide_each_row root n dir g

/-- Modelled from the spec: the `Grid` collaborator's `get_adjacent(col,row)`
returns the up/down/left/right neighbors that exist on an `n × n` board; we
model it by the list of on-board neighbor coordinates. -/
def adjacentPos (n : Nat) (c r : Nat) : List (Nat × Nat) :=
  (if c + 1 < n then [(c + 1, r)] else []) ++
  (if 0 < c then [(c - 1, r)] else []) ++
  (if r + 1 < n then [(c, r + 1)] else []) ++
  (if 0 < r then [(c, r - 1)] else [])

/-- `Game.can_play()`: scan all cells; a cell whose value is 0, or one of
whose on-board neighbors holds the same value, makes the game playable. -/
def can_play (n : Nat) (g : List (List Int)) : Bool :=
  (List.range n).any fun r => (List.range n).any fun c =>
    grid_get g c r == 0 ||
      (adjacentPos n c r).any (fun p => grid_get g p.1 p.2 == grid_get g c r)

/-- Tag naming the list an index was used on inside `_slide_helper`:
`l_copy`, `new_list` or `movement`. -/
inductive ArrTag where
  | lc
  | nl
  | mv
deriving DecidableEq

/-- Python index resolution on a list of length `n`: a negative index counts
from the end of the list; an index outside `[-n, n)` raises `IndexError`,
modelled as `none`. -/
def pyResolve (n : Nat) (i : Int) : Option Nat :=
  if 0 ≤ i then (if i < (n : Int) then some i.toNat else none)
  else (if 0 ≤ i + (n : Int) then some (i + (n : Int)).toNat else none)

/-- Python list read `l[i]`, with negative-index wraparound. -/
def pyGet (l : List Int) (i : Int) : Option Int :=
  (pyResolve l.length i).map (fun j => l.getD j 0)

/-- Python list write `l[i] = v`, with negative-index wraparound. -/
def pySet (l : List Int) (i : Int) (v : Int) : Option (List Int) :=
  (pyResolve l.length i).map (fun j => l.set j v)

/-- The literal loop of `Game._slide_helper`, iterating
`for i in range(start_index, len(l_copy))` with Python indexing semantics:
`none` models an `IndexError`.  The last component records, in order, every
raw index used on `l_copy`, `new_list` and `movement` (the read for the
comparison, then the written cell and the movement cell of the branch
taken).  The fuel argument counts the remaining iterations. -/
def slidePyIter (root : Int) (lc : List Int) :
    Nat → Int → List Int → List Int → Nat → Int → List (ArrTag × Int) →
    Option (List Int × List Int × Int × List (ArrTag × Int))
  | 0, _, nl, mv, _, s, tr => some (nl, mv, s, tr)
  | k + 1, i, nl, mv, ni, s, tr => do
    let x ← pyGet lc i
    let tr1 := tr ++ [(ArrTag.lc, i)]
    if x = 0 then
      slidePyIter root lc k (i + 1) nl mv ni s tr1
    else do
      let cur ← pyGet nl (ni : Int)
      let tr2 := tr1 ++ [(ArrTag.nl, (ni : Int))]
      if x = cur then do
        let nl2 ← pySet nl (ni : Int) (cur * root)
        let mv2 ← pySet mv i ((ni : Int) - i)
        slidePyIter root lc k (i + 1) nl2 mv2 (ni + 1) (s + x * root)
          (tr2 ++ [(ArrTag.nl, (ni : Int)), (ArrTag.mv, i)])
      else if cur = 0 then do
        let nl2 ← pySet nl (ni : Int) x
        let mv2 ← pySet mv i ((ni : Int) - i)
        slidePyIter root lc k (i + 1) nl2 mv2 ni s
          (tr2 ++ [(ArrTag.nl, (ni : Int)), (ArrTag.mv, i)])
      else do
        let nl2 ← pySet nl ((ni : Int) + 1) x
        let mv2 ← pySet mv i ((ni : Int) + 1 - i)
        slidePyIter root lc k (i + 1) nl2 mv2 (ni + 1) s
          (tr2 ++ [(ArrTag.nl, (ni : Int) + 1), (ArrTag.mv, i)])

/-- The literal core of `_slide_helper` on the (already direction-normalized)
line `lc`: start at `first_non_zero_index(lc)` — which is `-1` on an
all-zero line — and run to the end of the list. -/
def slidePy (root : Int) (lc : List Int) :
    Option (List Int × List Int × Int × List (ArrTag × Int)) :=
  let n := lc.length
  let start := first_non_zero_index lc
  slidePyIter root lc ((n : Int) - start).toNat start
    (List.replicate n 0) (List.replicate n 0) 0 0 []

/-- `Game._slide_helper` with the literal loop: reversal for `DOWN`/`RIGHT`
before and after, keeping the index trace of the loop. -/
def slide_helper_py (root : Int) (dir : SlideDirection) (l : List Int) :
    Option (List Int × List Int × Int × List (ArrTag × Int)) :=
  let lc := if dir = SlideDirection.DOWN ∨ dir = SlideDirection.RIGHT
    then l.reverse else l
  (slidePy root lc).map (fun r =>
    if dir = SlideDirection.DOWN ∨ dir = SlideDirection.RIGHT then
      (r.1.reverse, (r.2.1.reverse).map (fun o => -o), r.2.2.1, r.2.2.2)
    else r)

theorem getD_set_self {l : List Int} {i : Nat} {v : Int} (h : i < l.length) :
    (l.set i v).getD i 0 = v := by
  rw [List.getD_eq_getElem _ _ (by simpa using h)]
  simp [List.getElem_set_self]

theorem getD_set_ne {l : List Int} {i j : Nat} {v : Int} (h : i ≠ j) :
    (l.set i v).getD j 0 = l.getD j 0 := by
  simp [List.getD, List.getElem?_set_ne h]

theorem getD_replicate {n j : Nat} : (List.replicate n (0 : Int)).getD j 0 = 0 := by
  rcases lt_or_ge j n with h | h
  · rw [List.getD_eq_getElem _ _ (by simpa using h)]; simp
  · rw [List.getD_eq_default]; simp [h]

theorem pyGet_nat {l : List Int} {i : Nat} (h : i < l.length) :
    pyGet l (i : Int) = some (l.getD i 0) := by
  simp [pyGet, pyResolve, h]

theorem pySet_nat {l : List Int} {i : Nat} {v : Int} (h : i < l.length) :
    pySet l (i : Int) v = some (l.set i v) := by
  simp [pySet, pyResolve, h]

theorem getD_zero_of_all_zero {l : List Int} (h : ∀ y ∈ l, y = 0) (j : Nat) :
    l.getD j 0 = 0 := by
  rcases lt_or_ge j l.length with hj | hj
  · rw [List.getD_eq_getElem _ _ (by simpa using hj)]
    exact h _ (List.getElem_mem _)
  · rw [List.getD_eq_default]
    simpa using hj

/-- The invariant of the `_slide_helper` scan, at the start of the iteration
for source index `i`: the output buffer has the board length, the write
cursor is at most `i`, all cells above the cursor are still empty, and the
cursor cell can only be occupied once some earlier source index filled it,
which forces `new_index < i`. -/
def Inv (n i : Nat) (nl : List Int) (ni : Nat) : Prop :=
  nl.length = n ∧ ni ≤ i ∧ (∀ j : Nat, ni < j → nl.getD j 0 = 0) ∧
    (nl.getD ni 0 ≠ 0 → ni < i)

/-- One pass of the literal loop from a state satisfying the invariant
succeeds (no `IndexError`), computes exactly what `slideGo` computes, and
only ever uses indices in `[0, n)` on all three lists. -/
theorem slidePyIter_master (root : Int) (lc : List Int) :
    ∀ (k : Nat) (i : Nat) (nl mv : List Int) (ni : Nat) (s : Int)
      (tr : List (ArrTag × Int)),
      i + k = lc.length → Inv lc.length i nl ni → mv.length = lc.length →
      ∃ v m s2 tr2,
        slidePyIter root lc k (i : Int) nl mv ni s tr = some (v, m, s2, tr2) ∧
        (v, m, s2) = slideGo root (lc.drop i) i nl mv ni s ∧
        ∀ p ∈ tr2, p ∈ tr ∨ (0 ≤ p.2 ∧ p.2 < (lc.length : Int)) := by
  intro k
  induction k with
  | zero =>
    intro i nl mv ni s tr hk hinv hmv
    have hi : i = lc.length := by omega
    subst hi
    refine ⟨nl, mv, s, tr, rfl, ?_, fun p hp => Or.inl hp⟩
    rw [List.drop_length]
    rfl
  | succ k ih =>
    intro i nl mv ni s tr hk hinv hmv
    obtain ⟨hlen, hni, hzero, hocc⟩ := hinv
    have hi : i < lc.length := by omega
    have hni' : ni < lc.length := by omega
    have hx : pyGet lc (i : Int) = some (lc.getD i 0) := pyGet_nat hi
    have hdrop : lc.drop i = lc.getD i 0 :: lc.drop (i + 1) := by
      rw [List.drop_eq_getElem_cons hi, List.getD_eq_getElem _ _ hi]
    have hcast : (i : Int) + 1 = ((i + 1 : Nat) : Int) := by push_cast; ring
    have hii : (0 : Int) ≤ (i : Int) ∧ (i : Int) < (lc.length : Int) :=
      ⟨Int.ofNat_nonneg i, by exact_mod_cast hi⟩
    have hnn : (0 : Int) ≤ (ni : Int) ∧ (ni : Int) < (lc.length : Int) :=
      ⟨Int.ofNat_nonneg ni, by exact_mod_cast hni'⟩
    have hsetNl : ∀ v : Int, pySet nl (ni : Int) v = some (nl.set ni v) :=
      fun v => pySet_nat (by omega)
    have hsetMv : ∀ v : Int, pySet mv (i : Int) v = some (mv.set i v) :=
      fun v => pySet_nat (by omega)
    by_cases hx0 : lc.getD i 0 = 0
    · have hx0n : lc[i]?.getD 0 = 0 := by simpa using hx0
      have step : slidePyIter root lc (k + 1) (i : Int) nl mv ni s tr =
          slidePyIter root lc k ((i + 1 : Nat) : Int) nl mv ni s
            (tr ++ [(ArrTag.lc, (i : Int))]) := by
        rw [← hcast]
        simp [slidePyIter, hx, hx0n]
      obtain ⟨v, m, s2, tr2, hres, hgo, htr⟩ :=
        ih (i + 1) nl mv ni s (tr ++ [(ArrTag.lc, (i : Int))]) (by omega)
          ⟨hlen, by omega, hzero, fun h => Nat.lt_succ_of_lt (hocc h)⟩ hmv
      refine ⟨v, m, s2, tr2, by rw [step, hres], ?_, ?_⟩
      · rw [hdrop]
        simp only [slideGo, if_pos hx0]
        exact hgo
      · intro p hp
        rcases htr p hp with h | h
        · rcases List.mem_append.1 h with h2 | h2
          · exact Or.inl h2
          · right
            simp only [List.mem_singleton] at h2
            simpa [h2] using hii
        · exact Or.inr h
    · have hx0n : ¬ lc[i]?.getD 0 = 0 := by simpa using hx0
      have hcur : pyGet nl (ni : Int) = some (nl.getD ni 0) :=
        pyGet_nat (by omega)
      by_cases hmerge : lc.getD i 0 = nl.getD ni 0
      · have hmn : lc[i]?.getD 0 = nl[ni]?.getD 0 := by simpa using hmerge
        have hcur0 : ¬ nl[ni]?.getD 0 = 0 := by
          simpa using fun h => hx0 (hmerge.trans h)
        have step : slidePyIter root lc (k + 1) (i : Int) nl mv ni s tr =
            slidePyIter root lc k ((i + 1 : Nat) : Int)
              (nl.set ni (nl.getD ni 0 * root))
              (mv.set i ((ni : Int) - (i : Int))) (ni + 1)
              (s + lc.getD i 0 * root)
              (tr ++ [(ArrTag.lc, (i : Int)), (ArrTag.nl, (ni : Int)),
                (ArrTag.nl, (ni : Int)), (ArrTag.mv, (i : Int))]) := by
          rw [← hcast]
          simp [slidePyIter, hx, hx0n, hcur, hmn, hcur0, hsetNl, hsetMv]
        have hinv2 : Inv lc.length (i + 1) (nl.set ni (nl.getD ni 0 * root))
            (ni + 1) := by
          refine ⟨by simp [hlen], by omega, ?_, ?_⟩
          · intro j hj
            rw [getD_set_ne (by omega)]
            exact hzero j (by omega)
          · intro hne
            exfalso
            rw [getD_set_ne (by omega)] at hne
            exact hne (hzero (ni + 1) (by omega))
        obtain ⟨v, m, s2, tr2, hres, hgo, htr⟩ :=
          ih (i + 1) (nl.set ni (nl.getD ni 0 * root))
            (mv.set i ((ni : Int) - (i : Int))) (ni + 1)
            (s + lc.getD i 0 * root) _ (by omega) hinv2 (by simp [hmv])
        refine ⟨v, m, s2, tr2, by rw [step, hres], ?_, ?_⟩
        · rw [hdrop]
          simp only [slideGo, if_neg hx0, if_pos hmerge]
          exact hgo
        · intro p hp
          rcases htr p hp with h | h
          · rcases List.mem_append.1 h with h2 | h2
            · exact Or.inl h2
            · right
              simp only [List.mem_cons, List.mem_singleton,
                List.not_mem_nil, or_false] at h2
              rcases h2 with h2 | h2 | h2 | h2
              · simpa [h2] using hii
              · simpa [h2] using hnn
              · simpa [h2] using hnn
              · simpa [h2] using hii
          · exact Or.inr h
      · have hmn : ¬ lc[i]?.getD 0 = nl[ni]?.getD 0 := by simpa using hmerge
        by_cases hempty : nl.getD ni 0 = 0
        · have hen : nl[ni]?.getD 0 = 0 := by simpa using hempty
          have step : slidePyIter root lc (k + 1) (i : Int) nl mv ni s tr =
              slidePyIter root lc k ((i + 1 : Nat) : Int)
                (nl.set ni (lc.getD i 0))
                (mv.set i ((ni : Int) - (i : Int))) ni s
                (tr ++ [(ArrTag.lc, (i : Int)), (ArrTag.nl, (ni : Int)),
                  (ArrTag.nl, (ni : Int)), (ArrTag.mv, (i : Int))]) := by
            rw [← hcast]
            simp [slidePyIter, hx, hx0n, hcur, hmn, hen, hsetNl, hsetMv]
          have hinv2 : Inv lc.length (i + 1) (nl.set ni (lc.getD i 0)) ni := by
            refine ⟨by simp [hlen], by omega, ?_, ?_⟩
            · intro j hj
              rw [getD_set_ne (by omega)]
              exact hzero j hj
            · intro _
              omega
          obtain ⟨v, m, s2, tr2, hres, hgo, htr⟩ :=
            ih (i + 1) (nl.set ni (lc.getD i 0))
              (mv.set i ((ni : Int) - (i : Int))) ni s _ (by omega) hinv2
              (by simp [hmv])
          refine ⟨v, m, s2, tr2, by rw [step, hres], ?_, ?_⟩
          · rw [hdrop]
            simp only [slideGo, if_neg hx0, if_neg hmerge, if_pos hempty]
            exact hgo
          · intro p hp
            rcases htr p hp with h | h
            · rcases List.mem_append.1 h with h2 | h2
              · exact Or.inl h2
              · right
                simp only [List.mem_cons, List.mem_singleton,
                  List.not_mem_nil, or_false] at h2
                rcases h2 with h2 | h2 | h2 | h2
                · simpa [h2] using hii
                · simpa [h2] using hnn
                · simpa [h2] using hnn
                · simpa [h2] using hii
            · exact Or.inr h
        · have hen : ¬ nl[ni]?.getD 0 = 0 := by simpa using hempty
          have hlt : ni < i := hocc hempty
          have hcast2 : (ni : Int) + 1 = ((ni + 1 : Nat) : Int) := by
            push_cast; ring
          have hn1 : (0 : Int) ≤ (ni : Int) + 1 ∧
              (ni : Int) + 1 < (lc.length : Int) := by
            constructor
            · omega
            · have h3 : ni + 1 < lc.length := by omega
              omega
          have hsetNl2 : ∀ v : Int, pySet nl ((ni : Int) + 1) v =
              some (nl.set (ni + 1) v) := by
            intro v
            rw [hcast2]
            exact pySet_nat (by omega)
          have step : slidePyIter root lc (k + 1) (i : Int) nl mv ni s tr =
              slidePyIter root lc k ((i + 1 : Nat) : Int)
                (nl.set (ni + 1) (lc.getD i 0))
                (mv.set i ((ni : Int) + 1 - (i : Int))) (ni + 1) s
                (tr ++ [(ArrTag.lc, (i : Int)), (ArrTag.nl, (ni : Int)),
                  (ArrTag.nl, (ni : Int) + 1), (ArrTag.mv, (i : Int))]) := by
            rw [← hcast]
            simp [slidePyIter, hx, hx0n, hcur, hmn, hen, hsetNl2, hsetMv]
          have hinv2 : Inv lc.length (i + 1) (nl.set (ni + 1) (lc.getD i 0))
              (ni + 1) := by
            refine ⟨by simp [hlen], by omega, ?_, ?_⟩
            · intro j hj
              rw [getD_set_ne (by omega)]
              exact hzero j (by omega)
            · intro _
              omega
          obtain ⟨v, m, s2, tr2, hres, hgo, htr⟩ :=
            ih (i + 1) (nl.set (ni + 1) (lc.getD i 0))
              (mv.set i ((ni : Int) + 1 - (i : Int))) (ni + 1) s _ (by omega)
              hinv2 (by simp [hmv])
          refine ⟨v, m, s2, tr2, by rw [step, hres], ?_, ?_⟩
          · rw [hdrop]
            simp only [slideGo, if_neg hx0, if_neg hmerge, if_neg hempty]
            exact hgo
          · intro p hp
            rcases htr p hp with h | h
            · rcases List.mem_append.1 h with h2 | h2
              · exact Or.inl h2
              · right
                simp only [List.mem_cons, List.mem_singleton,
                  List.not_mem_nil, or_false] at h2
                rcases h2 with h2 | h2 | h2 | h2
                · simpa [h2] using hii
                · simpa [h2] using hnn
                · simpa [h2] using hn1
                · simpa [h2] using hii
            · exact Or.inr h



theorem fnzAux_cases : ∀ (l : List Int) (i : Int),
    (firstNonZeroAux l i = -1 ∧ ∀ y ∈ l, y = 0) ∨
    ∃ j : Nat, firstNonZeroAux l i = i + j ∧ j < l.length ∧
      (∀ y ∈ l.take j, y = 0) ∧ l.getD j 0 ≠ 0 := by
  intro l
  induction l with
  | nil =>
    intro i
    exact Or.inl ⟨rfl, by simp⟩
  | cons x r ihr =>
    intro i
    by_cases hx : x = 0
    · subst hx
      rcases ihr (i + 1) with ⟨h1, h2⟩ | ⟨j, h1, h2, h3, h4⟩
      · refine Or.inl ⟨by simp [firstNonZeroAux, h1], ?_⟩
        intro y hy
        rcases List.mem_cons.1 hy with hy | hy
        · exact hy
        · exact h2 y hy
      · refine Or.inr ⟨j + 1, ?_, by simpa using h2, ?_, by simpa using h4⟩
        · rw [show firstNonZeroAux (0 :: r) i = firstNonZeroAux r (i + 1) by
            simp [firstNonZeroAux], h1]
          push_cast
          ring
        · intro y hy
          rw [List.take_succ_cons] at hy
          rcases List.mem_cons.1 hy with hy | hy
          · exact hy
          · exact h3 y hy
    · refine Or.inr ⟨0, by simp [firstNonZeroAux, hx], by simp, by simp, ?_⟩
      simpa using hx

theorem slideGo_len (root : Int) : ∀ (rest : List Int) (i : Nat)
    (nl mv : List Int) (ni : Nat) (s : Int),
    (slideGo root rest i nl mv ni s).1.length = nl.length ∧
    (slideGo root rest i nl mv ni s).2.1.length = mv.length := by
  intro rest
  induction rest with
  | nil =>
    intro i nl mv ni s
    exact ⟨rfl, rfl⟩
  | cons x r ihr =>
    intro i nl mv ni s
    simp only [slideGo]
    split_ifs with h1 h2 h3
    · exact ihr (i + 1) nl mv ni s
    · rcases ihr (i + 1) (nl.set ni (nl.getD ni 0 * root))
        (mv.set i ((ni : Int) - (i : Int))) (ni + 1) (s + x * root) with ⟨ha, hb⟩
      rw [ha, hb]
      simp
    · rcases ihr (i + 1) (nl.set ni x)
        (mv.set i ((ni : Int) - (i : Int))) ni s with ⟨ha, hb⟩
      rw [ha, hb]
      simp
    · rcases ihr (i + 1) (nl.set (ni + 1) x)
        (mv.set i ((ni : Int) + 1 - (i : Int))) (ni + 1) s with ⟨ha, hb⟩
      rw [ha, hb]
      simp

/-- Scanning a block of zeros only advances the source index: the iterations
of `_slide_helper` before the first non-zero entry do nothing. -/
theorem slideGo_zeros_append (root : Int) : ∀ (z rest : List Int) (i : Nat)
    (nl mv : List Int) (ni : Nat) (s : Int), (∀ y ∈ z, y = 0) →
    slideGo root (z ++ rest) i nl mv ni s =
      slideGo root rest (i + z.length) nl mv ni s := by
  intro z
  induction z with
  | nil =>
    intro rest i nl mv ni s _
    simp
  | cons y z ihz =>
    intro rest i nl mv ni s h
    have hy : y = 0 := h y (List.mem_cons_self y z)
    subst hy
    have h2 := ihz rest (i + 1) nl mv ni s (fun a ha => h a (List.mem_cons_of_mem _ ha))
    have hstep : slideGo root (((0 : Int) :: z) ++ rest) i nl mv ni s =
        slideGo root (z ++ rest) (i + 1) nl mv ni s := by
      rw [List.cons_append]
      simp [slideGo]
    rw [hstep, h2, show i + 1 + z.length = i + ((0 : Int) :: z).length by
      simp [List.length_cons]
      omega]

/-- The literal `_slide_helper` loop — started at `first_non_zero_index`,
with Python indexing semantics — never raises, computes exactly what the
cleaned-up core `slideCore` computes, produces outputs of the input length,
and only uses indices in `[-1, n)`; all indices are in `[0, n)` as soon as
the line has a non-zero entry. -/
theorem slidePy_eq_slideCore (root : Int) (lc : List Int) (h1 : 1 ≤ lc.length) :
    ∃ v m s tr, slidePy root lc = some (v, m, s, tr) ∧
      (v, m, s) = slideCore root lc ∧
      v.length = lc.length ∧ m.length = lc.length ∧
      (∀ p ∈ tr, -1 ≤ p.2 ∧ p.2 < (lc.length : Int)) ∧
      ((∃ y ∈ lc, y ≠ 0) → ∀ p ∈ tr, 0 ≤ p.2) := by
  have hInv0 : Inv lc.length 0 (List.replicate lc.length 0) 0 :=
    ⟨List.length_replicate _ _, le_refl 0, fun j _ => getD_replicate,
      fun hne => absurd getD_replicate hne⟩
  rcases fnzAux_cases lc 0 with ⟨hf, hall⟩ | ⟨j, hf, hjlt, htake, hget⟩
  · have hstart : first_non_zero_index lc = -1 := hf
    have hfuel : ((lc.length : Int) - first_non_zero_index lc).toNat =
        lc.length + 1 := by
      rw [hstart]
      omega
    have hres : pyResolve lc.length (-1) = some (lc.length - 1) := by
      have hc1 : ¬ (0 : Int) ≤ -1 := by omega
      have hc2 : (0 : Int) ≤ -1 + (lc.length : Int) := by omega
      simp only [pyResolve, if_neg hc1, if_pos hc2]
      congr 1
      omega
    have hget1 : pyGet lc (-1) = some 0 := by
      simp only [pyGet, hres, Option.map_some']
      rw [getD_zero_of_all_zero hall]
    have hfuelA : (((lc.length : Int)) - -1).toNat = lc.length + 1 := by omega
    have step1 : slidePy root lc =
        slidePyIter root lc lc.length 0 (List.replicate lc.length 0)
          (List.replicate lc.length 0) 0 0 [(ArrTag.lc, -1)] := by
      simp only [slidePy, hstart, hfuelA]
      simp [slidePyIter, hget1]
    obtain ⟨v, m, s2, tr2, hres2, hgo, htr⟩ :=
      slidePyIter_master root lc lc.length 0 (List.replicate lc.length 0)
        (List.replicate lc.length 0) 0 0 [(ArrTag.lc, -1)] (by omega) hInv0
        (List.length_replicate _ _)
    have hcore : (v, m, s2) = slideCore root lc := by
      rw [hgo]
      simp [slideCore]
    have hlv := slideGo_len root (lc.drop 0) 0 (List.replicate lc.length 0)
      (List.replicate lc.length 0) 0 0
    refine ⟨v, m, s2, tr2, ?_, hcore, ?_, ?_, ?_, ?_⟩
    · rw [step1]
      simpa using hres2
    · have := hlv.1
      rw [← hgo] at this
      simpa using this
    · have := hlv.2
      rw [← hgo] at this
      simpa using this
    · intro p hp
      rcases htr p hp with h | h
      · simp only [List.mem_singleton] at h
        subst h
        constructor
        · simp
        · simp
          omega
      · exact ⟨by omega, h.2⟩
    · intro hex
      exfalso
      obtain ⟨y, hy, hne⟩ := hex
      exact hne (hall y hy)
  · have hstart : first_non_zero_index lc = (j : Int) := by simpa using hf
    have hjle : j ≤ lc.length := le_of_lt hjlt
    have hfuel : ((lc.length : Int) - first_non_zero_index lc).toNat =
        lc.length - j := by
      rw [hstart]
      omega
    have hfuelA : (((lc.length : Int)) - (j : Int)).toNat = lc.length - j := by
      omega
    have step1 : slidePy root lc =
        slidePyIter root lc (lc.length - j) (j : Int)
          (List.replicate lc.length 0) (List.replicate lc.length 0) 0 0 [] := by
      simp only [slidePy, hstart, hfuelA]
    obtain ⟨v, m, s2, tr2, hres2, hgo, htr⟩ :=
      slidePyIter_master root lc (lc.length - j) j (List.replicate lc.length 0)
        (List.replicate lc.length 0) 0 0 [] (by omega)
        ⟨List.length_replicate _ _, Nat.zero_le j, fun j2 _ => getD_replicate,
          fun hne => absurd getD_replicate hne⟩
        (List.length_replicate _ _)
    have hz := slideGo_zeros_append root (lc.take j) (lc.drop j) 0
      (List.replicate lc.length 0) (List.replicate lc.length 0) 0 0 htake
    rw [List.take_append_drop] at hz
    have hlen_take : (lc.take j).length = j := by
      simp [List.length_take, Nat.min_eq_left hjle]
    rw [hlen_take] at hz
    have hcore : (v, m, s2) = slideCore root lc := by
      rw [hgo, slideCore, hz]
      simp
    have hlv := slideGo_len root (lc.drop j) j (List.replicate lc.length 0)
      (List.replicate lc.length 0) 0 0
    refine ⟨v, m, s2, tr2, by rw [step1, hres2], hcore, ?_, ?_, ?_, ?_⟩
    · have := hlv.1
      rw [← hgo] at this
      simpa using this
    · have := hlv.2
      rw [← hgo] at this
      simpa using this
    · intro p hp
      rcases htr p hp with h | h
      · exact absurd h (List.not_mem_nil p)
      · exact ⟨by omega, h.2⟩
    · intro _ p hp
      rcases htr p hp with h | h
      · exact absurd h (List.not_mem_nil p)
      · exact h.1


/-- `slide_helper_py` on a direction with no reversal. -/
theorem slide_helper_py_straight (root : Int) (dir : SlideDirection)
    (l : List Int)
    (hrev : ¬ (dir = SlideDirection.DOWN ∨ dir = SlideDirection.RIGHT))
    (h1 : 1 ≤ l.length) :
    ∃ v m s tr, slide_helper_py root dir l = some (v, m, s, tr) ∧
      (v, m, s) = slide_helper root dir l ∧
      v.length = l.length ∧ m.length = l.length ∧
      (∀ p ∈ tr, -1 ≤ p.2 ∧ p.2 < (l.length : Int)) ∧
      ((∃ y ∈ l, y ≠ 0) → ∀ p ∈ tr, 0 ≤ p.2) := by
  obtain ⟨v, m, s, tr, hpy, hcore, hlv, hlm, hb1, hb2⟩ :=
    slidePy_eq_slideCore root l h1
  refine ⟨v, m, s, tr, ?_, ?_, hlv, hlm, hb1, hb2⟩
  · simp only [slide_helper_py, if_neg hrev, hpy, Option.map_some']
  · simpa [slide_helper, if_neg hrev] using hcore

/-- `slide_helper_py` on a direction with reversal. -/
theorem slide_helper_py_mirror (root : Int) (dir : SlideDirection)
    (l : List Int)
    (hrev : dir = SlideDirection.DOWN ∨ dir = SlideDirection.RIGHT)
    (h1 : 1 ≤ l.length) :
    ∃ v m s tr, slide_helper_py root dir l = some (v, m, s, tr) ∧
      (v, m, s) = slide_helper root dir l ∧
      v.length = l.length ∧ m.length = l.length ∧
      (∀ p ∈ tr, -1 ≤ p.2 ∧ p.2 < (l.length : Int)) ∧
      ((∃ y ∈ l, y ≠ 0) → ∀ p ∈ tr, 0 ≤ p.2) := by
  obtain ⟨v, m, s, tr, hpy, hcore, hlv, hlm, hb1, hb2⟩ :=
    slidePy_eq_slideCore root l.reverse (by simpa using h1)
  refine ⟨v.reverse, (m.reverse).map (fun o => -o), s, tr, ?_, ?_,
    by simpa using hlv, by simpa using hlm, by simpa using hb1, ?_⟩
  · simp only [slide_helper_py, if_pos hrev, hpy, Option.map_some']
  · simp only [slide_helper, if_pos hrev]
    rw [← hcore]
  · intro hex
    refine hb2 ?_
    obtain ⟨y, hy, hne⟩ := hex
    exact ⟨y, List.mem_reverse.2 hy, hne⟩

/-- `_slide_helper` treats `NONE` exactly like `LEFT`: neither is in
`[DOWN, RIGHT]`, so no reversal happens in either case. -/
theorem slide_helper_NONE_eq_LEFT (root : Int) (l : List Int) :
    slide_helper root SlideDirection.NONE l =
      slide_helper root SlideDirection.LEFT l := by
  simp [slide_helper]

/-- C1: sliding a single line toward index 0 follows the
compaction-and-merge-once algorithm: `_slide_helper` with direction `LEFT`
and `root_tile_value = 2` sends `[2,2,2,2]` to `[4,4,0,0]` with a score
increment of 8, and sends `[2,2,4,2]` to `[4,4,2,0]` (the trailing 2 does
not merge with the 4 produced by the earlier merge). -/
theorem claim_C1 :
    (slide_helper 2 SlideDirection.LEFT [2, 2, 2, 2]).1 = [4, 4, 0, 0] ∧
    (slide_helper 2 SlideDirection.LEFT [2, 2, 2, 2]).2.2 = 8 ∧
    (slide_helper 2 SlideDirection.LEFT [2, 2, 4, 2]).1 = [4, 4, 2, 0] := by
  refine ⟨rfl, rfl, rfl⟩

/-- C3: for every line, sliding `RIGHT` (resp. `DOWN`) mirrors sliding
`LEFT` (resp. `UP`) on the reversed line: the values are the reverse of the
values produced on the reversed input, and the movement offsets are that
run's offsets reversed and negated. -/
theorem claim_C3 (root : Int) (l : List Int) :
    ((slide_helper root SlideDirection.RIGHT l).1 =
        (slide_helper root SlideDirection.LEFT l.reverse).1.reverse ∧
      (slide_helper root SlideDirection.RIGHT l).2.1 =
        ((slide_helper root SlideDirection.LEFT l.reverse).2.1.reverse).map
          (fun o => -o)) ∧
    ((slide_helper root SlideDirection.DOWN l).1 =
        (slide_helper root SlideDirection.UP l.reverse).1.reverse ∧
      (slide_helper root SlideDirection.DOWN l).2.1 =
        ((slide_helper root SlideDirection.UP l.reverse).2.1.reverse).map
          (fun o => -o)) := by
  simp [slide_helper]

/-- C9: `slide_tiles` with direction `NONE` computes exactly what direction
`LEFT` computes (same new grid, same movement matrix, same score increment):
`NONE` is routed to the row-sliding path and `_slide_helper` applies no
reversal for it. -/
theorem claim_C9 (root : Int) (n : Nat) (g : List (List Int)) :
    slide_tiles root n SlideDirection.NONE g =
      slide_tiles root n SlideDirection.LEFT g := by
  simp [slide_tiles, slide_each_row, slide_helper_NONE_eq_LEFT]

/-- C5: `can_play` returns `true` iff some cell holds 0, or some cell has an
on-board 4-directional neighbor with the same value; in particular it is
`false` on a full grid with no adjacent equal pair and `true` on a full grid
with an adjacent equal pair. -/
theorem claim_C5 :
    (∀ (n : Nat) (g : List (List Int)),
      can_play n g = true ↔
        ((∃ r < n, ∃ c < n, grid_get g c r = 0) ∨
          (∃ r < n, ∃ c < n, ∃ p ∈ adjacentPos n c r,
            grid_get g p.1 p.2 = grid_get g c r))) ∧
    can_play 4 [[1, 2, 3, 4], [8, 7, 6, 5], [9, 10, 11, 12], [16, 15, 14, 13]]
      = false ∧
    can_play 4 [[2, 2, 2, 2], [4, 8, 4, 8], [16, 32, 16, 32], [64, 128, 64, 128]]
      = true := by
  refine ⟨fun n g => ?_, by decide, by decide⟩
  simp only [can_play, List.any_eq_true, List.mem_range, Bool.or_eq_true,
    beq_iff_eq]
  constructor
  · rintro ⟨r, hr, c, hc, h | h⟩
    · exact Or.inl ⟨r, hr, c, hc, h⟩
    · exact Or.inr ⟨r, hr, c, hc, h⟩
  · rintro (⟨r, hr, c, hc, h⟩ | ⟨r, hr, c, hc, h⟩)
    · exact ⟨r, hr, c, hc, Or.inl h⟩
    · exact ⟨r, hr, c, hc, Or.inr h⟩

/-- C10 (amended): for every input line of length `n ≥ 1` and every
direction, every list access `_slide_helper` makes on `l_copy`, `new_list`
and `movement` succeeds, the literal loop computes exactly what the
embedded function computes, both outputs have length `n`, and every raw
index used lies in `[-1, n)`; as soon as the line contains a non-zero
element, every raw index used is a non-negative integer strictly less than
`n`.  (On an all-zero line the first iteration reads `l_copy[-1]`, which
Python's negative indexing resolves to the last cell — holding 0 — so the
loop still never goes out of bounds.) -/
theorem claim_C10 (root : Int) (dir : SlideDirection) (l : List Int)
    (h1 : 1 ≤ l.length) :
    ∃ v m s tr, slide_helper_py root dir l = some (v, m, s, tr) ∧
      (v, m, s) = slide_helper root dir l ∧
      v.length = l.length ∧ m.length = l.length ∧
      (∀ p ∈ tr, -1 ≤ p.2 ∧ p.2 < (l.length : Int)) ∧
      ((∃ y ∈ l, y ≠ 0) → ∀ p ∈ tr, 0 ≤ p.2) := by
  by_cases hrev : dir = SlideDirection.DOWN ∨ dir = SlideDirection.RIGHT
  · exact slide_helper_py_mirror root dir l hrev h1
  · exact slide_helper_py_straight root dir l hrev h1

/-- C10 (counterexample): on the all-zero line `[0,0,0,0]` the loop of
`_slide_helper` does use a negative list index: `first_non_zero_index`
returns `-1` and the first iteration reads `l_copy[-1]`, so not every index
used is non-negative. -/
theorem claim_C10_counterexample :
    ∃ v m s tr,
      slide_helper_py 2 SlideDirection.LEFT [0, 0, 0, 0] =
        some (v, m, s, tr) ∧ (ArrTag.lc, -1) ∈ tr ∧ ((-1 : Int) < 0) :=
  ⟨_, _, _, _, rfl, by decide, by decide⟩

theorem claim_C10_witness :
    ∃ v m s tr, slide_helper_py 2 SlideDirection.LEFT [2, 0, 2] =
        some (v, m, s, tr) ∧
      (v, m, s) = slide_helper 2 SlideDirection.LEFT [2, 0, 2] ∧
      v.length = ([2, 0, 2] : List Int).length ∧
      m.length = ([2, 0, 2] : List Int).length ∧
      (∀ p ∈ tr, -1 ≤ p.2 ∧ p.2 < (([2, 0, 2] : List Int).length : Int)) ∧
      ((∃ y ∈ ([2, 0, 2] : List Int), y ≠ 0) → ∀ p ∈ tr, 0 ≤ p.2) :=
  claim_C10 2 SlideDirection.LEFT [2, 0, 2] (by decide)

/-- Entries of the movement buffer below the current scan index are never
written again. -/
theorem slideGo_mv_stable (root : Int) : ∀ (rest : List Int) (i : Nat)
    (nl mv : List Int) (ni : Nat) (s : Int) (j : Nat), j < i →
    ((slideGo root rest i nl mv ni s).2.1).getD j 0 = mv.getD j 0 := by
  intro rest
  induction rest with
  | nil =>
    intro i nl mv ni s j hj
    rfl
  | cons x r ihr =>
    intro i nl mv ni s j hj
    simp only [slideGo]
    split_ifs with h1 h2 h3
    · exact ihr (i + 1) nl mv ni s j (by omega)
    · rw [ihr (i + 1) _ _ _ _ j (by omega)]
      exact getD_set_ne (by omega)
    · rw [ihr (i + 1) _ _ _ _ j (by omega)]
      exact getD_set_ne (by omega)
    · rw [ihr (i + 1) _ _ _ _ j (by omega)]
      exact getD_set_ne (by omega)

/-- Shifting the pointwise description of a zero-movement scan across one
processed cell. -/
theorem zero_move_combine (i : Nat) (x : Int) (r nl nl2 res : List Int)
    (hne : ∀ j : Nat, j ≠ i → nl2.getD j 0 = nl.getD j 0)
    (hvx : x ≠ 0 → nl2.getD i 0 = x)
    (hv0 : x = 0 → nl2.getD i 0 = nl.getD i 0)
    (h : ∀ j : Nat, res.getD j 0 =
      if i + 1 ≤ j ∧ j < i + 1 + r.length ∧ r.getD (j - (i + 1)) 0 ≠ 0
      then r.getD (j - (i + 1)) 0 else nl2.getD j 0) :
    ∀ j : Nat, res.getD j 0 =
      if i ≤ j ∧ j < i + (x :: r).length ∧ (x :: r).getD (j - i) 0 ≠ 0
      then (x :: r).getD (j - i) 0 else nl.getD j 0 := by
  intro j
  rw [h j]
  rcases Nat.lt_trichotomy j i with hj | hj | hj
  · rw [if_neg (by omega), if_neg (by rintro ⟨a, _, _⟩; omega)]
    exact hne j (by omega)
  · subst hj
    have hsub0 : j - j = 0 := by omega
    by_cases hx : x = 0
    · have hc2 : ¬ (j ≤ j ∧ j < j + (x :: r).length ∧
          (x :: r).getD (j - j) 0 ≠ 0) := by
        rintro ⟨_, _, hc⟩
        apply hc
        rw [hsub0, List.getD_cons_zero]
        exact hx
      rw [if_neg (by omega), if_neg hc2]
      exact hv0 hx
    · have hc2 : j ≤ j ∧ j < j + (x :: r).length ∧
          (x :: r).getD (j - j) 0 ≠ 0 := by
        refine ⟨le_refl j, by simp [List.length_cons], ?_⟩
        rw [hsub0, List.getD_cons_zero]
        exact hx
      rw [if_neg (by omega), if_pos hc2, hsub0, List.getD_cons_zero]
      exact hvx hx
  · have hsub : j - i = (j - (i + 1)) + 1 := by omega
    by_cases hc : i + 1 ≤ j ∧ j < i + 1 + r.length ∧ r.getD (j - (i + 1)) 0 ≠ 0
    · have hc2 : i ≤ j ∧ j < i + (x :: r).length ∧
          (x :: r).getD (j - i) 0 ≠ 0 := by
        refine ⟨by omega, by simp [List.length_cons]; omega, ?_⟩
        rw [hsub, List.getD_cons_succ]
        exact hc.2.2
      rw [if_pos hc, if_pos hc2, hsub, List.getD_cons_succ]
    · have hc2 : ¬ (i ≤ j ∧ j < i + (x :: r).length ∧
          (x :: r).getD (j - i) 0 ≠ 0) := by
        rintro ⟨h1, h2, h3⟩
        apply hc
        refine ⟨by omega, by simp [List.length_cons] at h2; omega, ?_⟩
        rw [hsub, List.getD_cons_succ] at h3
        exact h3
      rw [if_neg hc, if_neg hc2]
      exact hne j (by omega)

/-- A scan of `_slide_helper` whose final movement buffer is all zero merges
nothing (the score is unchanged) and writes every non-zero cell back to its
own index, leaving the values exactly where they were. -/
theorem slideGo_zero_move (root : Int) : ∀ (rest : List Int) (i : Nat)
    (nl mv : List Int) (ni : Nat) (s : Int),
    nl.length = mv.length → i + rest.length ≤ mv.length → ni ≤ i →
    (∀ j : Nat, ni < j → nl.getD j 0 = 0) →
    (nl.getD ni 0 ≠ 0 → ni < i) →
    (∀ x ∈ (slideGo root rest i nl mv ni s).2.1, x = 0) →
    (slideGo root rest i nl mv ni s).2.2 = s ∧
      ∀ j : Nat, (slideGo root rest i nl mv ni s).1.getD j 0 =
        if i ≤ j ∧ j < i + rest.length ∧ rest.getD (j - i) 0 ≠ 0
        then rest.getD (j - i) 0 else nl.getD j 0 := by
  intro rest
  induction rest with
  | nil =>
    intro i nl mv ni s hnm hlen hni hzero hocc hmv
    refine ⟨rfl, fun j => ?_⟩
    rw [if_neg]
    · rfl
    · rintro ⟨h1, h2, h3⟩
      simp only [List.length_nil] at h2
      omega
  | cons x r ihr =>
    intro i nl mv ni s hnm hlen hni hzero hocc hmv
    have hilen : i < mv.length := by
      simp only [List.length_cons] at hlen
      omega
    by_cases hx : x = 0
    · subst hx
      have hstep : slideGo root ((0 : Int) :: r) i nl mv ni s =
          slideGo root r (i + 1) nl mv ni s := by
        simp [slideGo]
      rw [hstep] at hmv ⊢
      obtain ⟨hs, hpt⟩ := ihr (i + 1) nl mv ni s hnm
        (by simp only [List.length_cons] at hlen; omega) (by omega) hzero
        (fun h => by have := hocc h; omega) hmv
      exact ⟨hs, zero_move_combine i 0 r nl nl _ (fun j _ => rfl)
        (fun h => absurd rfl h) (fun _ => rfl) hpt⟩
    · by_cases hmerge : x = nl.getD ni 0
      · exfalso
        have hocc2 : ni < i := hocc (by rw [← hmerge]; exact hx)
        have hcc : ¬ nl[ni]?.getD 0 = 0 := by
          simpa using fun h => hx (hmerge.trans h)
        have hstep : slideGo root (x :: r) i nl mv ni s =
            slideGo root r (i + 1) (nl.set ni (nl.getD ni 0 * root))
              (mv.set i ((ni : Int) - (i : Int))) (ni + 1) (s + x * root) := by
          simp [slideGo, hx, hmerge, hcc]
        have hfin : ((slideGo root (x :: r) i nl mv ni s).2.1).getD i 0 =
            (ni : Int) - (i : Int) := by
          rw [hstep, slideGo_mv_stable root r (i + 1) _ _ _ _ i (by omega),
            getD_set_self (by simpa using hilen)]
        have h0 : ((slideGo root (x :: r) i nl mv ni s).2.1).getD i 0 = 0 :=
          getD_zero_of_all_zero hmv i
        rw [hfin] at h0
        omega
      · by_cases hempty : nl.getD ni 0 = 0
        · have hmn : ¬ x = nl[ni]?.getD 0 := by simpa using hmerge
          have hen : nl[ni]?.getD 0 = 0 := by simpa using hempty
          have hstep : slideGo root (x :: r) i nl mv ni s =
              slideGo root r (i + 1) (nl.set ni x)
                (mv.set i ((ni : Int) - (i : Int))) ni s := by
            simp [slideGo, hx, hmn, hen]
          have hfin : ((slideGo root (x :: r) i nl mv ni s).2.1).getD i 0 =
              (ni : Int) - (i : Int) := by
            rw [hstep, slideGo_mv_stable root r (i + 1) _ _ _ _ i (by omega),
              getD_set_self (by simpa using hilen)]
          have h0 : ((slideGo root (x :: r) i nl mv ni s).2.1).getD i 0 = 0 :=
            getD_zero_of_all_zero hmv i
          rw [hfin] at h0
          have hnieq : ni = i := by omega
          subst hnieq
          rw [hstep] at hmv ⊢
          obtain ⟨hs, hpt⟩ := ihr (ni + 1) (nl.set ni x)
            (mv.set ni ((ni : Int) - (ni : Int))) ni s
            (by simp [hnm]) (by simp only [List.length_cons] at hlen; simp; omega)
            (by omega)
            (fun j hj => by rw [getD_set_ne (by omega)]; exact hzero j hj)
            (fun _ => by omega) hmv
          refine ⟨hs, zero_move_combine ni x r nl (nl.set ni x) _
            (fun j hj => getD_set_ne (by omega))
            (fun _ => getD_set_self (by rw [hnm]; exact hilen))
            (fun h => absurd h hx) hpt⟩
        · have hocc2 : ni < i := hocc hempty
          have hmn : ¬ x = nl[ni]?.getD 0 := by simpa using hmerge
          have hen : ¬ nl[ni]?.getD 0 = 0 := by simpa using hempty
          have hstep : slideGo root (x :: r) i nl mv ni s =
              slideGo root r (i + 1) (nl.set (ni + 1) x)
                (mv.set i ((ni : Int) + 1 - (i : Int))) (ni + 1) s := by
            simp [slideGo, hx, hmn, hen]
          have hfin : ((slideGo root (x :: r) i nl mv ni s).2.1).getD i 0 =
              (ni : Int) + 1 - (i : Int) := by
            rw [hstep, slideGo_mv_stable root r (i + 1) _ _ _ _ i (by omega),
              getD_set_self (by simpa using hilen)]
          have h0 : ((slideGo root (x :: r) i nl mv ni s).2.1).getD i 0 = 0 :=
            getD_zero_of_all_zero hmv i
          rw [hfin] at h0
          have hnieq : ni + 1 = i := by omega
          rw [hstep, hnieq] at hmv ⊢
          obtain ⟨hs, hpt⟩ := ihr (i + 1) (nl.set i x)
            (mv.set i ((ni : Int) + 1 - (i : Int))) i s
            (by simp [hnm]) (by simp only [List.length_cons] at hlen; simp; omega)
            (by omega)
            (fun j hj => by rw [getD_set_ne (by omega)]; exact hzero j (by omega))
            (fun _ => by omega) hmv
          refine ⟨hs, zero_move_combine i x r nl (nl.set i x) _
            (fun j hj => getD_set_ne (by omega))
            (fun _ => getD_set_self (by rw [hnm]; exact hilen))
            (fun h => absurd h hx) hpt⟩

theorem eq_of_getD {a b : List Int} (hlen : a.length = b.length)
    (h : ∀ j : Nat, a.getD j 0 = b.getD j 0) : a = b := by
  apply List.ext_getElem hlen
  intro j h1 h2
  have h3 := h j
  rw [List.getD_eq_getElem _ _ h1, List.getD_eq_getElem _ _ h2] at h3
  exact h3

theorem all_zero_of_getD {l : List Int} (h : ∀ j : Nat, l.getD j 0 = 0) :
    ∀ x ∈ l, x = 0 := by
  intro x hx
  obtain ⟨j, hj, hx2⟩ := List.mem_iff_getElem.1 hx
  have h2 := h j
  rw [List.getD_eq_getElem _ _ hj, hx2] at h2
  exact h2

theorem getD_mem {l : List Int} {j : Nat} (h : j < l.length) :
    l.getD j 0 ∈ l := by
  rw [List.getD_eq_getElem _ _ h]
  exact List.getElem_mem _

/-- If the movement vector of `slideCore` is all zero, nothing merged and
nothing moved: the values are returned unchanged and the score increment
is zero. -/
theorem slideCore_zero_move (root : Int) (l : List Int)
    (h : ∀ x ∈ (slideCore root l).2.1, x = 0) :
    (slideCore root l).1 = l ∧ (slideCore root l).2.2 = 0 := by
  have hlen := slideGo_len root l 0 (List.replicate l.length 0)
    (List.replicate l.length 0) 0 0
  obtain ⟨hs, hpt⟩ := slideGo_zero_move root l 0 (List.replicate l.length 0)
    (List.replicate l.length 0) 0 0 (by simp) (by simp) (le_refl 0)
    (fun j _ => getD_replicate) (fun hne => absurd getD_replicate hne) h
  refine ⟨?_, hs⟩
  apply eq_of_getD
  · have := hlen.1
    simpa [slideCore] using this
  · intro j
    have hj := hpt j
    simp only [slideCore]
    rw [hj]
    split_ifs with hc
    · simp
    · rw [getD_replicate]
      have hz : l.getD j 0 = 0 := by
        by_contra hnz
        apply hc
        refine ⟨Nat.zero_le j, ?_, by simpa using hnz⟩
        rcases lt_or_ge j l.length with hlt | hge
        · omega
        · exact absurd (by rw [List.getD_eq_default]; exact hge) hnz
      rw [hz]

theorem slide_helper_len (root : Int) (dir : SlideDirection) (l : List Int) :
    (slide_helper root dir l).1.length = l.length ∧
    (slide_helper root dir l).2.1.length = l.length := by
  have h1 := slideGo_len root l 0 (List.replicate l.length 0)
    (List.replicate l.length 0) 0 0
  have h2 := slideGo_len root l.reverse 0 (List.replicate l.reverse.length 0)
    (List.replicate l.reverse.length 0) 0 0
  by_cases hrev : dir = SlideDirection.DOWN ∨ dir = SlideDirection.RIGHT
  · simp only [slide_helper, if_pos hrev]
    constructor
    · simpa [slideCore] using h2.1
    · simpa [slideCore] using h2.2
  · simp only [slide_helper, if_neg hrev]
    constructor
    · simpa [slideCore] using h1.1
    · simpa [slideCore] using h1.2

/-- The direction-aware form of `slideCore_zero_move`: an all-zero movement
vector from `_slide_helper` means the line came back exactly as it went in
and the score did not change. -/
theorem slide_helper_zero_move (root : Int) (dir : SlideDirection)
    (l : List Int) (h : ∀ x ∈ (slide_helper root dir l).2.1, x = 0) :
    (slide_helper root dir l).1 = l ∧ (slide_helper root dir l).2.2 = 0 := by
  by_cases hrev : dir = SlideDirection.DOWN ∨ dir = SlideDirection.RIGHT
  · simp only [slide_helper, if_pos hrev] at h ⊢
    have hmv : ∀ x ∈ (slideCore root l.reverse).2.1, x = 0 := by
      intro x hx
      have hmem : -x ∈ ((slideCore root l.reverse).2.1.reverse).map
          (fun o => -o) :=
        List.mem_map.2 ⟨x, List.mem_reverse.2 hx, rfl⟩
      have h2 := h (-x) hmem
      omega
    obtain ⟨hv, hs⟩ := slideCore_zero_move root l.reverse hmv
    constructor
    · rw [hv, List.reverse_reverse]
    · exact hs
  · simp only [slide_helper, if_neg hrev] at h ⊢
    exact slideCore_zero_move root l h

theorem range_map_getD {α : Type} (d : α) : ∀ (l : List α),
    (List.range l.length).map (fun j => l.getD j d) = l := by
  intro l
  induction l with
  | nil => simp
  | cons x r ih =>
    rw [List.length_cons, List.range_succ_eq_map]
    simp only [List.map_cons, List.getD_cons_zero, List.map_map]
    have hf : ((fun j => (x :: r).getD j d) ∘ Nat.succ) =
        fun j => r.getD j d := by
      funext j
      simp [List.getD_cons_succ]
    rw [hf, ih]

/-- A well-formed `n × n` board: `n` rows, each of length `n`. -/
def WFGrid (n : Nat) (g : List (List Int)) : Prop :=
  g.length = n ∧ ∀ row ∈ g, row.length = n

instance (n : Nat) (g : List (List Int)) : Decidable (WFGrid n g) := by
  unfold WFGrid
  infer_instance

theorem foldl_min_const (n : Nat) : ∀ (l : List Nat), (∀ y ∈ l, y = n) →
    l.foldl Nat.min n = n := by
  intro l
  induction l with
  | nil =>
    intro _
    rfl
  | cons x r ih =>
    intro h
    have hx : x = n := h x (List.mem_cons_self x r)
    simp only [List.foldl_cons, hx, Nat.min_self]
    exact ih (fun y hy => h y (List.mem_cons_of_mem _ hy))

theorem minLen_eq (a : List (List Int)) (n : Nat)
    (ha : ∀ row ∈ a, row.length = n) (hne : a ≠ []) : minLen a = n := by
  match a with
  | [] => exact absurd rfl hne
  | x :: xs =>
    have hx : x.length = n := ha x (List.mem_cons_self x xs)
    have hdef : minLen (x :: xs) = (xs.map List.length).foldl Nat.min x.length :=
      rfl
    rw [hdef, hx]
    apply foldl_min_const
    intro y hy
    obtain ⟨row, hrow, hlen⟩ := List.mem_map.1 hy
    rw [← hlen]
    exact ha row (List.mem_cons_of_mem _ hrow)

theorem getD_map_range {α : Type} (d : α) (f : Nat → α) (k j : Nat)
    (h : j < k) : ((List.range k).map f).getD j d = f j := by
  rw [List.getD_eq_getElem _ _ (by simpa using h)]
  simp

theorem getD_map_list (a : List (List Int)) (f : List Int → Int) (c : Nat)
    (hc : c < a.length) (d : Int) : (a.map f).getD c d = f (a.getD c []) := by
  rw [List.getD_eq_getElem _ _ (by simpa using hc),
    List.getD_eq_getElem _ _ hc]
  simp

/-- Transposing the list of columns of a well-formed board recovers the
board: this is how `slide_each_column` reassembles the grid. -/
theorem transpose_get_cols (n : Nat) (g : List (List Int)) (wf : WFGrid n g) :
    transpose_columns ((List.range n).map (fun c => get_col g c)) = g := by
  obtain ⟨hlen, hrows⟩ := wf
  rcases Nat.eq_zero_or_pos n with hn | hn
  · subst hn
    have hg : g = [] := List.eq_nil_of_length_eq_zero hlen
    subst hg
    rfl
  · have halen : ((List.range n).map (fun c => get_col g c)).length = n := by
      simp
    have harow : ∀ row ∈ (List.range n).map (fun c => get_col g c),
        row.length = n := by
      intro row hrow
      obtain ⟨c, hc, hrow2⟩ := List.mem_map.1 hrow
      rw [← hrow2]
      simp [get_col, hlen]
    have hane : (List.range n).map (fun c => get_col g c) ≠ [] := by
      intro hcon
      rw [hcon] at halen
      simp at halen
      omega
    have hmin : minLen ((List.range n).map (fun c => get_col g c)) = n :=
      minLen_eq _ n harow hane
    rw [transpose_columns, hmin]
    have hg : ∀ j ∈ List.range n,
        ((List.range n).map (fun c => get_col g c)).map
          (fun row => row.getD j 0) = g.getD j [] := by
      intro j hj
      have hjn : j < n := List.mem_range.1 hj
      rw [List.map_map]
      have hfun : ((fun row => row.getD j 0) ∘ (fun c => get_col g c)) =
          fun c => (g.getD j []).getD c 0 := by
        funext c
        simp only [Function.comp, get_col]
        exact getD_map_list g _ j (by omega) 0
      rw [hfun]
      have hrowlen : (g.getD j []).length = n := by
        apply hrows
        have hjg : j < g.length := by omega
        rw [List.getD_eq_getElem _ _ hjg]
        exact List.getElem_mem _
      rw [← hrowlen, range_map_getD]
    rw [List.map_congr_left hg]
    have hgg : (List.range n).map (fun j => g.getD j []) = g := by
      rw [← hlen]
      exact range_map_getD [] g
    exact hgg

/-- If every entry of the transpose of a well-formed matrix is zero, every
entry of the matrix is zero. -/
theorem transpose_allZero (a : List (List Int)) (n : Nat) (halen : a.length = n)
    (harow : ∀ row ∈ a, row.length = n)
    (h : ∀ row ∈ transpose_columns a, ∀ x ∈ row, x = 0) :
    ∀ row ∈ a, ∀ x ∈ row, x = 0 := by
  intro row hrow x hx
  have hane : a ≠ [] := by
    intro hcon
    rw [hcon] at hrow
    exact absurd hrow (List.not_mem_nil row)
  have hmin : minLen a = n := minLen_eq a n harow hane
  obtain ⟨c, hc, hceq⟩ := List.mem_iff_getElem.1 hrow
  obtain ⟨j, hj, hjeq⟩ := List.mem_iff_getElem.1 hx
  have hjn : j < n := by
    rw [harow row hrow] at hj
    exact hj
  have hrowD : a.getD c [] = row := by
    rw [List.getD_eq_getElem _ _ hc, hceq]
  have hxD : row.getD j 0 = x := by
    rw [List.getD_eq_getElem _ _ hj, hjeq]
  have htrow : (transpose_columns a).getD j [] =
      a.map (fun row2 => row2.getD j 0) := by
    rw [transpose_columns]
    exact getD_map_range [] _ (minLen a) j (by omega)
  have htlen : ((transpose_columns a).getD j []).length = a.length := by
    rw [htrow]
    simp
  have htmem : (transpose_columns a).getD j [] ∈ transpose_columns a := by
    apply List.getD_eq_getElem (transpose_columns a) [] ?_ ▸
      List.getElem_mem _
    simp [transpose_columns]
    omega
  have hval : ((transpose_columns a).getD j []).getD c 0 = x := by
    rw [htrow, getD_map_list a _ c hc 0, hrowD, hxD]
  have hvmem : ((transpose_columns a).getD j []).getD c 0 ∈
      (transpose_columns a).getD j [] := by
    apply getD_mem
    rw [htlen]
    exact hc
  have := h _ htmem _ hvmem
  rw [hval] at this
  exact this

/-- Every entry of a matrix is zero. -/
def allZeroM (m : List (List Int)) : Prop := ∀ row ∈ m, ∀ x ∈ row, x = 0

instance (m : List (List Int)) : Decidable (allZeroM m) := by
  unfold allZeroM
  infer_instance

/-- Row sliding with an all-zero movement matrix is a no-op: the grid values
come back unchanged and the score increment is zero. -/
theorem slide_each_row_no_op (root : Int) (n : Nat) (dir : SlideDirection)
    (g : List (List Int)) (wf : WFGrid n g)
    (h : allZeroM (slide_each_row root n dir g).2.1) :
    (slide_each_row root n dir g).1 = g ∧
      (slide_each_row root n dir g).2.2 = 0 := by
  obtain ⟨hlen, _⟩ := wf
  simp only [slide_each_row, List.map_map] at h ⊢
  have hline : ∀ r ∈ List.range n,
      (slide_helper root dir (get_row g r)).1 = get_row g r ∧
        (slide_helper root dir (get_row g r)).2.2 = 0 := by
    intro r hr
    apply slide_helper_zero_move
    intro x hx
    refine h _ ?_ x hx
    exact List.mem_map.2 ⟨r, hr, rfl⟩
  refine ⟨?_, ?_⟩
  · have hrows : (List.range n).map (fun r => get_row g r) = g := by
      simp only [get_row]
      rw [← hlen]
      exact range_map_getD [] g
    calc (List.range n).map ((fun p => p.1) ∘
          fun r => slide_helper root dir (get_row g r))
        = (List.range n).map (fun r => (slide_helper root dir (get_row g r)).1) := by
          simp [Function.comp]
      _ = (List.range n).map (fun r => get_row g r) :=
          List.map_congr_left (fun r hr => (hline r hr).1)
      _ = g := hrows
  · apply List.sum_eq_zero
    intro x hx
    obtain ⟨r, hr, hx2⟩ := List.mem_map.1 hx
    rw [← hx2]
    exact (hline r hr).2

/-- Column sliding with an all-zero movement matrix is a no-op. -/
theorem slide_each_column_no_op (root : Int) (n : Nat) (dir : SlideDirection)
    (g : List (List Int)) (wf : WFGrid n g)
    (h : allZeroM (slide_each_column root n dir g).2.1) :
    (slide_each_column root n dir g).1 = g ∧
      (slide_each_column root n dir g).2.2 = 0 := by
  obtain ⟨hlen, hrows⟩ := wf
  simp only [slide_each_column, List.map_map] at h ⊢
  have hmlen : ((List.range n).map ((fun p => p.2.1) ∘
      fun c => slide_helper root dir (get_col g c))).length = n := by
    simp
  have hmrow : ∀ row ∈ (List.range n).map ((fun p => p.2.1) ∘
      fun c => slide_helper root dir (get_col g c)), row.length = n := by
    intro row hrow
    obtain ⟨c, hc, hrow2⟩ := List.mem_map.1 hrow
    rw [← hrow2]
    simp only [Function.comp]
    rw [(slide_helper_len root dir (get_col g c)).2]
    simp [get_col, hlen]
  have hall := transpose_allZero _ n hmlen hmrow h
  have hline : ∀ c ∈ List.range n,
      (slide_helper root dir (get_col g c)).1 = get_col g c ∧
        (slide_helper root dir (get_col g c)).2.2 = 0 := by
    intro c hc
    apply slide_helper_zero_move
    intro x hx
    refine hall _ ?_ x hx
    exact List.mem_map.2 ⟨c, hc, rfl⟩
  refine ⟨?_, ?_⟩
  · have hvals : (List.range n).map ((fun p => p.1) ∘
        fun c => slide_helper root dir (get_col g c)) =
        (List.range n).map (fun c => get_col g c) :=
      List.map_congr_left (fun c hc => (hline c hc).1)
    rw [hvals]
    exact transpose_get_cols n g ⟨hlen, hrows⟩
  · apply List.sum_eq_zero
    intro x hx
    obtain ⟨c, hc, hx2⟩ := List.mem_map.1 hx
    rw [← hx2]
    exact (hline c hc).2

/-- `slide_tiles` with an all-zero movement matrix is a no-op: the grid it
writes back equals the old grid and the score does not change. -/
theorem slide_tiles_no_op (root : Int) (n : Nat) (dir : SlideDirection)
    (g : List (List Int)) (wf : WFGrid n g)
    (h : allZeroM (slide_tiles root n dir g).2.1) :
    (slide_tiles root n dir g).1 = g ∧ (slide_tiles root n dir g).2.2 = 0 := by
  by_cases hud : dir = SlideDirection.UP ∨ dir = SlideDirection.DOWN
  · simp only [slide_tiles, if_pos hud] at h ⊢
    exact slide_each_column_no_op root n dir g wf h
  · simp only [slide_tiles, if_neg hud] at h ⊢
    exact slide_each_row_no_op root n dir g wf h

theorem getD_set_self' {α : Type} {l : List α} {i : Nat} {v d : α}
    (h : i < l.length) : (l.set i v).getD i d = v := by
  rw [List.getD_eq_getElem _ _ (by simpa using h)]
  simp [List.getElem_set_self]

theorem getD_set_ne' {α : Type} {l : List α} {i j : Nat} {v d : α}
    (h : i ≠ j) : (l.set i v).getD j d = l.getD j d := by
  simp [List.getD, List.getElem?_set_ne h]

theorem eq_of_getD' {α : Type} (d : α) {a b : List α}
    (hlen : a.length = b.length) (h : ∀ j : Nat, a.getD j d = b.getD j d) :
    a = b := by
  apply List.ext_getElem hlen
  intro j h1 h2
  have h3 := h j
  rw [List.getD_eq_getElem _ _ h1, List.getD_eq_getElem _ _ h2] at h3
  exact h3

/-- The `GameConfig` dataclass, with its field defaults.
`mutation_probability` is a rational standing in for the IEEE-754 double
(every double value is an exactly representable rational, and nothing in the
engine does float arithmetic with it — it is only compared against a uniform
draw and serialized). -/
structure GameConfig where
  grid_size : Int := 4
  spawn_tile_count : Int := 2
  starting_tile_count : Int := 2
  win_tile_value : Int := 2 ^ 11
  mutation_probability : Rat := 1 / 10
  mutation_at_start : Bool := true
  spawn_kill : Bool := false
  root_tile_value : Int := 2
deriving DecidableEq

/-- An entry of `latest_spawn_locations`.  `Game._spawn_new_tile` returns
the Python tuple `(c, r)` (or `None` when no cell is empty, which
`initial_spawn` appends as-is), while `GameHelper.load` restores the JSON
arrays as Python lists.  Python equality distinguishes a tuple from a list
with equal entries, so the constructor records which kind it is. -/
inductive PyPair where
  | tup (c r : Int)
  | lst (c r : Int)
  | pynone
deriving DecidableEq

/-- The mutable state of a `Game` object. -/
structure Game where
  config : GameConfig
  init_mode : Bool
  grid : List (List Int)
  score : Int
  movement_matrix : List (List Int)
  latest_spawn_result : Option Bool
  latest_spawn_locations : List PyPair
deriving DecidableEq

/-- One random draw for a spawn attempt: the value of
`random.randint(0, len(empty_tiles) - 1)` (supplied as an arbitrary natural
and reduced modulo the number of empty tiles) and the uniform
`np.random.rand()` draw for the mutation decision. -/
structure SpawnDraw where
  pick : Nat
  rand : Rat
deriving DecidableEq

/-- `Game.get_empty_tiles`: the `(column, row)` coordinates of the empty
cells, scanning rows in the outer loop and columns in the inner loop. -/
def get_empty_tiles (n : Nat) (g : List (List Int)) : List (Nat × Nat) :=
  (((List.range n).map (fun r => ((List.range n).filter
      (fun c => grid_get g c r == 0)).map (fun c => (c, r))))).join

/-- `Game._get_new_tile_value`: the root value, or its square (the
"mutated" value) when the uniform draw falls below `mutation_probability`;
during init mode the mutation additionally requires `mutation_at_start`. -/
def get_new_tile_value (cfg : GameConfig) (inMode : Bool) (rand : Rat) : Int :=
  let root := cfg.root_tile_value
  let mutated := root * root
  if inMode then
    (if cfg.mutation_at_start ∧ rand < cfg.mutation_probability
      then mutated else root)
  else
    (if rand < cfg.mutation_probability then mutated else root)

/-- `Game._get_random_empty_tile` with the oracle draw: `none` when no cell
is empty, otherwise a uniformly chosen empty cell. -/
def get_random_empty_tile (n : Nat) (g : List (List Int)) (pick : Nat) :
    Option (Nat × Nat) :=
  let empty_tiles := get_empty_tiles n g
  if empty_tiles.isEmpty then none
  else some (empty_tiles.getD (pick % empty_tiles.length) (0, 0))

/-- `Game._spawn_new_tile`: choose the new value, choose a random empty
cell, write the tile; `none` when the tile could not be placed. -/
def spawn_new_tile (cfg : GameConfig) (inMode : Bool) (n : Nat)
    (g : List (List Int)) (d : SpawnDraw) :
    Option ((Nat × Nat) × List (List Int)) :=
  match get_random_empty_tile n g d.pick with
  | none => none
  | some pos =>
      some (pos, grid_set g pos.1 pos.2 (get_new_tile_value cfg inMode d.rand))

/-- The loop of `Game.initial_spawn`: spawn one tile per iteration (in init
mode), appending the returned position — including `None` when a tile could
not be placed, which the code appends as-is. -/
def initial_spawn_go (cfg : GameConfig) (n : Nat) (o : Nat → SpawnDraw) :
    List Nat → List (List Int) → List PyPair →
    List (List Int) × List PyPair
  | [], g, acc => (g, acc)
  | k :: rest, g, acc =>
    match spawn_new_tile cfg true n g (o k) with
    | none => initial_spawn_go cfg n o rest g (acc ++ [PyPair.pynone])
    | some (pos, g2) =>
        initial_spawn_go cfg n o rest g2
          (acc ++ [PyPair.tup (pos.1 : Int) (pos.2 : Int)])

/-- `Game.__init__`: store the config as given — there is no validation —
build the all-zero grid and movement matrix, run `initial_spawn` (its
randomness supplied by the oracle `o`), and leave init mode. -/
def Game.init (cfg : GameConfig) (o : Nat → SpawnDraw) : Game :=
  let n := cfg.grid_size.toNat
  let g0 := List.replicate n (List.replicate n (0 : Int))
  let res := initial_spawn_go cfg n o
    (List.range cfg.starting_tile_count.toNat) g0 []
  { config := cfg
    init_mode := false
    grid := res.1
    score := 0
    movement_matrix := List.replicate n (List.replicate n 0)
    latest_spawn_result := none
    latest_spawn_locations := res.2 }

/-- The read `new_list[r][c]` inside `Game.set_tiles`; `none` models the
`IndexError` raised when the supplied value matrix is too small. -/
def read_cell (new : List (List Int)) (r c : Nat) : Option Int :=
  if r < new.length then
    (if (new.getD r []).length ≤ c then none
      else some ((new.getD r []).getD c 0))
  else none

/-- The nested loop of `Game.set_tiles`: write `new_list[r][c]` to the grid
cell `(c, r)` for each `(r, c)` pair in turn. -/
def set_tiles_go (new : List (List Int)) :
    List (Nat × Nat) → List (List Int) → Option (List (List Int))
  | [], g => some g
  | rc :: rest, g =>
    match read_cell new rc.1 rc.2 with
    | none => none
    | some v => set_tiles_go new rest (grid_set g rc.2 rc.1 v)

/-- `Game.set_tiles(new_list)`: iterate `r` then `c` over
`range(grid_size)`, row-major. -/
def set_tiles (n : Nat) (g new : List (List Int)) :
    Option (List (List Int)) :=
  set_tiles_go new (((List.range n).map (fun r =>
    (List.range n).map (fun c => (r, c)))).join) g

theorem grid_set_len (g : List (List Int)) (c r : Nat) (v : Int) :
    (grid_set g c r v).length = g.length := by
  simp [grid_set]

theorem grid_set_row_len (g : List (List Int)) (c r : Nat) (v : Int)
    (r0 : Nat) :
    ((grid_set g c r v).getD r0 []).length = (g.getD r0 []).length := by
  by_cases h : r0 = r
  · subst h
    by_cases hr : r0 < g.length
    · rw [grid_set, getD_set_self' hr]
      simp
    · rw [grid_set, List.getD_eq_default _ _ (by
        simpa using Nat.le_of_not_lt hr),
        List.getD_eq_default _ _ (Nat.le_of_not_lt hr)]
  · rw [grid_set, getD_set_ne' (fun hh => h hh.symm)]

theorem grid_get_set_eq (g : List (List Int)) (c r : Nat) (v : Int)
    (hr : r < g.length) (hc : c < (g.getD r []).length) :
    grid_get (grid_set g c r v) c r = v := by
  simp only [grid_get, grid_set]
  rw [getD_set_self' hr, getD_set_self hc]

theorem grid_get_set_ne (g : List (List Int)) (c r : Nat) (v : Int)
    (c0 r0 : Nat) (hne : ¬ (r0 = r ∧ c0 = c)) :
    grid_get (grid_set g c r v) c0 r0 = grid_get g c0 r0 := by
  simp only [grid_get, grid_set]
  by_cases hr : r0 = r
  · subst hr
    have hcne : c ≠ c0 := fun h => hne ⟨rfl, h.symm⟩
    by_cases hrlen : r0 < g.length
    · rw [getD_set_self' hrlen, getD_set_ne hcne]
    · have h1 : (g.set r0 ((g.getD r0 []).set c v)).getD r0 [] = [] :=
        List.getD_eq_default _ _ (by simpa using Nat.le_of_not_lt hrlen)
      have h2 : g.getD r0 [] = [] :=
        List.getD_eq_default _ _ (Nat.le_of_not_lt hrlen)
      rw [h1, h2]
  · rw [getD_set_ne' (fun hh => hr hh.symm)]

theorem set_tiles_go_spec (new : List (List Int)) :
    ∀ (cells : List (Nat × Nat)) (g : List (List Int)),
    (∀ p ∈ cells, p.1 < new.length ∧ p.2 < (new.getD p.1 []).length) →
    (∀ p ∈ cells, p.1 < g.length ∧ p.2 < (g.getD p.1 []).length) →
    ∃ g2, set_tiles_go new cells g = some g2 ∧
      g2.length = g.length ∧
      (∀ r0 : Nat, (g2.getD r0 []).length = (g.getD r0 []).length) ∧
      (∀ c0 r0 : Nat, grid_get g2 c0 r0 =
        if (r0, c0) ∈ cells then (new.getD r0 []).getD c0 0
        else grid_get g c0 r0) := by
  intro cells
  induction cells with
  | nil =>
    intro g _ _
    refine ⟨g, rfl, rfl, fun _ => rfl, fun c0 r0 => ?_⟩
    rw [if_neg (List.not_mem_nil _)]
  | cons rc rest ih =>
    obtain ⟨rr, cc⟩ := rc
    intro g hread hwrite
    obtain ⟨hr0, hc0⟩ := hread (rr, cc) (List.mem_cons_self _ rest)
    obtain ⟨hwr0, hwc0⟩ := hwrite (rr, cc) (List.mem_cons_self _ rest)
    have hr : rr < new.length := hr0
    have hc : cc < (new.getD rr []).length := hc0
    have hwr : rr < g.length := hwr0
    have hwc : cc < (g.getD rr []).length := hwc0
    have hrd : read_cell new rr cc =
        some ((new.getD rr []).getD cc 0) := by
      rw [read_cell, if_pos hr, if_neg (by omega)]
    have hstep : set_tiles_go new ((rr, cc) :: rest) g = set_tiles_go new rest
        (grid_set g cc rr ((new.getD rr []).getD cc 0)) := by
      rw [set_tiles_go, hrd]
    obtain ⟨g2, hres, hlen, hrlen, hpt⟩ := ih
      (grid_set g cc rr ((new.getD rr []).getD cc 0))
      (fun p hp => hread p (List.mem_cons_of_mem _ hp))
      (fun p hp => by
        obtain ⟨h1, h2⟩ := hwrite p (List.mem_cons_of_mem _ hp)
        rw [grid_set_len, grid_set_row_len]
        exact ⟨h1, h2⟩)
    refine ⟨g2, by rw [hstep, hres], by rw [hlen, grid_set_len],
      fun r0 => by rw [hrlen r0, grid_set_row_len], fun c0 r0 => ?_⟩
    rw [hpt c0 r0]
    by_cases hmem : (r0, c0) ∈ rest
    · rw [if_pos hmem, if_pos (List.mem_cons_of_mem _ hmem)]
    · rw [if_neg hmem]
      by_cases heq : r0 = rr ∧ c0 = cc
      · obtain ⟨h1, h2⟩ := heq
        subst h1
        subst h2
        rw [if_pos (List.mem_cons_self _ rest)]
        exact grid_get_set_eq g c0 r0 _ hwr hwc
      · rw [if_neg (by
          intro hmem2
          rcases List.mem_cons.1 hmem2 with h | h
          · rw [Prod.mk.injEq] at h
            exact heq h
          · exact hmem h)]
        apply grid_get_set_ne
        exact heq

theorem getD_mem' {α : Type} {l : List α} {j : Nat} {d : α}
    (h : j < l.length) : l.getD j d ∈ l := by
  rw [List.getD_eq_getElem _ _ h]
  exact List.getElem_mem _

theorem mem_cells_iff (n : Nat) (p : Nat × Nat) :
    p ∈ (((List.range n).map (fun r =>
      (List.range n).map (fun c => (r, c)))).join) ↔ p.1 < n ∧ p.2 < n := by
  constructor
  · intro hp
    simp only [List.mem_join, List.mem_map, List.mem_range] at hp
    obtain ⟨l, ⟨r, hr, hl⟩, hpl⟩ := hp
    rw [← hl] at hpl
    simp only [List.mem_map, List.mem_range] at hpl
    obtain ⟨c, hc, hpc⟩ := hpl
    rw [← hpc]
    exact ⟨hr, hc⟩
  · rintro ⟨h1, h2⟩
    simp only [List.mem_join, List.mem_map, List.mem_range]
    refine ⟨(List.range n).map (fun c => (p.1, c)), ⟨p.1, h1, rfl⟩, ?_⟩
    simp only [List.mem_map, List.mem_range]
    exact ⟨p.2, h2, rfl⟩

/-- On a well-formed board, `set_tiles` with a well-formed value matrix
succeeds and overwrites every cell: the resulting grid is exactly the value
matrix, whatever the grid held before. -/
theorem set_tiles_full (n : Nat) (g new : List (List Int))
    (wfg : WFGrid n g) (wfn : WFGrid n new) :
    set_tiles n g new = some new := by
  obtain ⟨hglen, hgrow⟩ := wfg
  obtain ⟨hnlen, hnrow⟩ := wfn
  have hrowlen : ∀ (a : List (List Int)), a.length = n →
      (∀ row ∈ a, row.length = n) → ∀ r0 : Nat, r0 < n →
      (a.getD r0 []).length = n := by
    intro a halen harow r0 hr0
    apply harow
    apply getD_mem'
    omega
  obtain ⟨g2, hres, hlen, hrlen, hpt⟩ := set_tiles_go_spec new _ g
    (fun p hp => by
      obtain ⟨h1, h2⟩ := (mem_cells_iff n p).1 hp
      exact ⟨by omega, by rw [hrowlen new hnlen hnrow p.1 h1]; exact h2⟩)
    (fun p hp => by
      obtain ⟨h1, h2⟩ := (mem_cells_iff n p).1 hp
      exact ⟨by omega, by rw [hrowlen g hglen hgrow p.1 h1]; exact h2⟩)
  rw [set_tiles, hres]
  congr 1
  apply eq_of_getD' ([] : List Int)
  · omega
  · intro r0
    rcases lt_or_ge r0 n with hr0 | hr0
    · apply eq_of_getD
      · rw [hrlen r0, hrowlen g hglen hgrow r0 hr0,
          hrowlen new hnlen hnrow r0 hr0]
      · intro c0
        have h2 := hpt c0 r0
        rcases lt_or_ge c0 n with hc0 | hc0
        · rw [if_pos ((mem_cells_iff n (r0, c0)).2 ⟨hr0, hc0⟩)] at h2
          exact h2
        · have hga : (g2.getD r0 []).getD c0 0 = 0 :=
            List.getD_eq_default _ _ (by
              rw [hrlen r0, hrowlen g hglen hgrow r0 hr0]; omega)
          have hgb : (new.getD r0 []).getD c0 0 = 0 :=
            List.getD_eq_default _ _ (by
              rw [hrowlen new hnlen hnrow r0 hr0]; omega)
          rw [hga, hgb]
    · have hga : g2.getD r0 [] = [] :=
        List.getD_eq_default _ _ (by omega)
      have hgb : new.getD r0 [] = [] :=
        List.getD_eq_default _ _ (by omega)
      rw [hga, hgb]

/-- Transposing a well-formed `n`-column stack of length-`n` lines gives a
well-formed board. -/
theorem transpose_wf (a : List (List Int)) (n : Nat) (halen : a.length = n)
    (harow : ∀ row ∈ a, row.length = n) : WFGrid n (transpose_columns a) := by
  rcases Nat.eq_zero_or_pos n with hn | hn
  · subst hn
    have ha : a = [] := List.eq_nil_of_length_eq_zero halen
    subst ha
    exact ⟨rfl, fun row hrow => absurd hrow (List.not_mem_nil row)⟩
  · have hane : a ≠ [] := by
      intro hcon
      rw [hcon] at halen
      simp at halen
      omega
    have hmin : minLen a = n := minLen_eq a n harow hane
    constructor
    · simp [transpose_columns, hmin]
    · intro row hrow
      simp only [transpose_columns, hmin, List.mem_map, List.mem_range] at hrow
      obtain ⟨j, hj, hrow2⟩ := hrow
      rw [← hrow2]
      simp [halen]

theorem get_row_len (n : Nat) (g : List (List Int)) (wf : WFGrid n g)
    (r : Nat) (hr : r < n) : (get_row g r).length = n := by
  obtain ⟨hlen, hrow⟩ := wf
  apply hrow
  rw [get_row]
  apply getD_mem'
  omega

/-- The grid produced by `slide_tiles` on a well-formed board is again
well-formed. -/
theorem slide_tiles_wf (root : Int) (n : Nat) (dir : SlideDirection)
    (g : List (List Int)) (wf : WFGrid n g) :
    WFGrid n (slide_tiles root n dir g).1 := by
  by_cases hud : dir = SlideDirection.UP ∨ dir = SlideDirection.DOWN
  · simp only [slide_tiles, if_pos hud, slide_each_column, List.map_map]
    apply transpose_wf _ n (by simp)
    intro row hrow
    simp only [List.mem_map, List.mem_range, Function.comp] at hrow
    obtain ⟨c, hc, hrow2⟩ := hrow
    rw [← hrow2, (slide_helper_len root dir (get_col g c)).1]
    simp [get_col, wf.1]
  · simp only [slide_tiles, if_neg hud, slide_each_row, List.map_map]
    constructor
    · simp
    · intro row hrow
      simp only [List.mem_map, List.mem_range, Function.comp] at hrow
      obtain ⟨r, hr, hrow2⟩ := hrow
      rw [← hrow2, (slide_helper_len root dir (get_row g r)).1]
      exact get_row_len n g wf r hr

/-- `Game.slide_tiles(direction)` at the game level: compute the new values,
movement matrix and score increment, write the values back with
`set_tiles`, and store the movement matrix. -/
def slide_tiles_game (dir : SlideDirection) (game : Game) : Option Game :=
  let n := game.config.grid_size.toNat
  let res := slide_tiles game.config.root_tile_value n dir game.grid
  (set_tiles n game.grid res.1).map (fun g2 =>
    { game with
        grid := g2
        movement_matrix := res.2.1
        score := game.score + res.2.2 })

/-- On a well-formed board `slide_tiles` never fails at the game level, and
the resulting state is the computed grid, movement matrix and score. -/
theorem slide_tiles_game_eq (game : Game) (dir : SlideDirection)
    (hwf : WFGrid game.config.grid_size.toNat game.grid) :
    slide_tiles_game dir game = some
      { game with
          grid := (slide_tiles game.config.root_tile_value
            game.config.grid_size.toNat dir game.grid).1
          movement_matrix := (slide_tiles game.config.root_tile_value
            game.config.grid_size.toNat dir game.grid).2.1
          score := game.score + (slide_tiles game.config.root_tile_value
            game.config.grid_size.toNat dir game.grid).2.2 } := by
  simp only [slide_tiles_game]
  rw [set_tiles_full _ _ _ hwf
    (slide_tiles_wf game.config.root_tile_value _ dir game.grid hwf)]
  rfl

/-- C7 (amended): `Game.__init__` performs no configuration validation at
all: for every config — valid or invalid — construction succeeds, the config
is stored unchanged, and the game leaves init mode. -/
theorem claim_C7 (cfg : GameConfig) (o : Nat → SpawnDraw) :
    (Game.init cfg o).config = cfg ∧ (Game.init cfg o).init_mode = false :=
  ⟨rfl, rfl⟩

/-- C7 (counterexample): constructing a `Game` whose config carries
`mutation_probability = 2` — outside `[0, 1]` — succeeds and returns a
`Game` object holding the invalid config, rather than failing fast with a
configuration-validation error. -/
theorem claim_C7_counterexample :
    (Game.init { mutation_probability := 2 } (fun _ => ⟨0, 1 / 2⟩)).config =
      { mutation_probability := 2 } ∧ ¬ ((2 : Rat) ≤ 1) :=
  ⟨rfl, by norm_num⟩

/-- C4 (amended): on a well-formed board, when `slide_tiles(D)` yields an
all-zero movement matrix, that slide left the grid unchanged, and calling
`slide_tiles(D)` again returns exactly the same game state (all-zero
movement matrix included).  Without the no-movement hypothesis the claim is
false — a second slide can merge tiles the first slide made adjacent. -/
theorem claim_C4 (game : Game) (dir : SlideDirection)
    (hwf : WFGrid game.config.grid_size.toNat game.grid)
    (hdir : dir = SlideDirection.UP ∨ dir = SlideDirection.DOWN ∨
      dir = SlideDirection.LEFT ∨ dir = SlideDirection.RIGHT) :
    ∃ g1, slide_tiles_game dir game = some g1 ∧
      (allZeroM g1.movement_matrix →
        g1.grid = game.grid ∧ slide_tiles_game dir g1 = some g1) := by
  refine ⟨_, slide_tiles_game_eq game dir hwf, ?_⟩
  intro hz
  have hz2 : allZeroM (slide_tiles game.config.root_tile_value
      game.config.grid_size.toNat dir game.grid).2.1 := hz
  have hno := slide_tiles_no_op game.config.root_tile_value
    game.config.grid_size.toNat dir game.grid hwf hz2
  refine ⟨hno.1, ?_⟩
  have hg1eq : ({ game with
      grid := (slide_tiles game.config.root_tile_value
        game.config.grid_size.toNat dir game.grid).1
      movement_matrix := (slide_tiles game.config.root_tile_value
        game.config.grid_size.toNat dir game.grid).2.1
      score := game.score + (slide_tiles game.config.root_tile_value
        game.config.grid_size.toNat dir game.grid).2.2 } : Game) =
      { game with
          movement_matrix := (slide_tiles game.config.root_tile_value
            game.config.grid_size.toNat dir game.grid).2.1 } := by
    rw [hno.1, hno.2, add_zero]
  rw [hg1eq]
  rw [slide_tiles_game_eq _ dir (by exact hwf)]
  rw [show (slide_tiles game.config.root_tile_value
      game.config.grid_size.toNat dir game.grid).1 = game.grid from hno.1,
    show (slide_tiles game.config.root_tile_value
      game.config.grid_size.toNat dir game.grid).2.2 = 0 from hno.2, add_zero]

/-- A reachable 4×4 state whose top row is `[2,2,2,2]`. -/
def c4Game : Game :=
  { config := {}
    init_mode := false
    grid := [[2, 2, 2, 2], [0, 0, 0, 0], [0, 0, 0, 0], [0, 0, 0, 0]]
    score := 0
    movement_matrix := [[0, 0, 0, 0], [0, 0, 0, 0], [0, 0, 0, 0],
      [0, 0, 0, 0]]
    latest_spawn_result := none
    latest_spawn_locations := [] }

/-- C4 (counterexample): sliding `c4Game` LEFT twice with no intervening
spawn changes the grid on the second call as well — the first slide yields
the row `[4,4,0,0]`, the second merges it to `[8,0,0,0]` — and the second
movement matrix is not all zero. -/
theorem claim_C4_counterexample :
    ∃ g1 g2, slide_tiles_game SlideDirection.LEFT c4Game = some g1 ∧
      slide_tiles_game SlideDirection.LEFT g1 = some g2 ∧
      g2.grid ≠ g1.grid ∧ ¬ allZeroM g2.movement_matrix := by
  refine ⟨_, _, rfl, rfl, by decide, by decide⟩

/-- A full 4×4 board on which no slide moves anything. -/
def c4StuckGame : Game :=
  { config := {}
    init_mode := false
    grid := [[1, 2, 3, 4], [8, 7, 6, 5], [9, 10, 11, 12], [16, 15, 14, 13]]
    score := 0
    movement_matrix := [[0, 0, 0, 0], [0, 0, 0, 0], [0, 0, 0, 0],
      [0, 0, 0, 0]]
    latest_spawn_result := none
    latest_spawn_locations := [] }

theorem claim_C4_witness :
    ∃ g1, slide_tiles_game SlideDirection.LEFT c4StuckGame = some g1 ∧
      (allZeroM g1.movement_matrix →
        g1.grid = c4StuckGame.grid ∧
          slide_tiles_game SlideDirection.LEFT g1 = some g1) :=
  claim_C4 c4StuckGame SlideDirection.LEFT (by decide) (by decide)

/-- A JSON value as handled by Python's `json` module on this data.
Objects keep insertion order.  Integers and floats are distinct leaf kinds;
a float is carried as its exact rational value (every IEEE-754 double is a
rational, and `json.dumps` of the float produced by `json.loads` of a
`dumps` output prints the identical literal, so the round trip is the
identity on the value). -/
inductive Json where
  | jnull
  | jbool (b : Bool)
  | jint (i : Int)
  | jfloat (q : Rat)
  | jarr (items : List Json)
  | jobj (fields : List (String × Json))

mutual

/-- `json.dumps` with its default separators (`", "` and `": "`).  The
printing of a float value is supplied as the parameter `fser`; all the
round-trip argument needs is that it is a function of the value. -/
def dumps (fser : Rat → String) : Json → String
  | Json.jnull => "null"
  | Json.jbool true => "true"
  | Json.jbool false => "false"
  | Json.jint i => toString i
  | Json.jfloat q => fser q
  | Json.jarr items =>
      "[" ++ String.intercalate ", " (dumpsList fser items) ++ "]"
  | Json.jobj fields =>
      "\x7b" ++ String.intercalate ", " (dumpsFields fser fields) ++ "\x7d"

def dumpsList (fser : Rat → String) : List Json → List String
  | [] => []
  | j :: rest => dumps fser j :: dumpsList fser rest

def dumpsFields (fser : Rat → String) : List (String × Json) → List String
  | [] => []
  | kv :: rest =>
      ("\"" ++ kv.1 ++ "\": " ++ dumps fser kv.2) :: dumpsFields fser rest

end

/-- `self.config.__dict__` in dataclass field order, as `Game.to_dict`
serializes it. -/
def configToJson (cfg : GameConfig) : Json :=
  Json.jobj
    [("grid_size", Json.jint cfg.grid_size),
     ("spawn_tile_count", Json.jint cfg.spawn_tile_count),
     ("starting_tile_count", Json.jint cfg.starting_tile_count),
     ("win_tile_value", Json.jint cfg.win_tile_value),
     ("mutation_probability", Json.jfloat cfg.mutation_probability),
     ("mutation_at_start", Json.jbool cfg.mutation_at_start),
     ("spawn_kill", Json.jbool cfg.spawn_kill),
     ("root_tile_value", Json.jint cfg.root_tile_value)]

/-- How `json.dumps` renders one entry of `latest_spawn_locations`: tuples
and lists both become JSON arrays, `None` becomes `null`. -/
def pairToJson : PyPair → Json
  | PyPair.tup c r => Json.jarr [Json.jint c, Json.jint r]
  | PyPair.lst c r => Json.jarr [Json.jint c, Json.jint r]
  | PyPair.pynone => Json.jnull

/-- `Game.to_dict`, keys in insertion order; `Game.to_json` is
`dumps` of this tree. -/
def to_dict (g : Game) : Json :=
  Json.jobj
    [("config", configToJson g.config),
     ("grid", Json.jarr (g.grid.map (fun row =>
        Json.jarr (row.map Json.jint)))),
     ("score", Json.jint g.score),
     ("movement_matrix", Json.jarr (g.movement_matrix.map (fun row =>
        Json.jarr (row.map Json.jint)))),
     ("latest_spawn_result", match g.latest_spawn_result with
       | none => Json.jnull
       | some b => Json.jbool b),
     ("latest_spawn_locations",
        Json.jarr (g.latest_spawn_locations.map pairToJson))]

/-- Key lookup in a parsed JSON object (`game_dict[k]`); `none` models the
`KeyError`.  All snapshots handled here have pairwise-distinct keys, so the
first match is the only match. -/
def jlookup : List (String × Json) → String → Option Json
  | [], _ => none
  | kv :: rest, k => if kv.1 = k then some kv.2 else jlookup rest k

def configFieldNames : List String :=
  ["grid_size", "spawn_tile_count", "starting_tile_count", "win_tile_value",
   "mutation_probability", "mutation_at_start", "spawn_kill",
   "root_tile_value"]

def getIntD (kvs : List (String × Json)) (k : String) (dflt : Int) :
    Option Int :=
  match jlookup kvs k with
  | none => some dflt
  | some (Json.jint i) => some i
  | some _ => none

def getFloatD (kvs : List (String × Json)) (k : String) (dflt : Rat) :
    Option Rat :=
  match jlookup kvs k with
  | none => some dflt
  | some (Json.jfloat q) => some q
  | some _ => none

def getBoolD (kvs : List (String × Json)) (k : String) (dflt : Bool) :
    Option Bool :=
  match jlookup kvs k with
  | none => some dflt
  | some (Json.jbool b) => some b
  | some _ => none

/-- `GameConfig(**game_dict["config"])`: an unexpected keyword is a
`TypeError` (`none`); a missing field silently takes the dataclass default;
a present field is stored without any range validation.  (A field bound to
a value of the wrong JSON type is out of scope of this model — Python would
store it unchecked.) -/
def configFromJson : Json → Option GameConfig
  | Json.jobj kvs =>
    if kvs.all (fun kv => configFieldNames.contains kv.1) then do
      let gs ← getIntD kvs "grid_size" 4
      let stc ← getIntD kvs "spawn_tile_count" 2
      let sts ← getIntD kvs "starting_tile_count" 2
      let wtv ← getIntD kvs "win_tile_value" (2 ^ 11)
      let mp ← getFloatD kvs "mutation_probability" (1 / 10)
      let mas ← getBoolD kvs "mutation_at_start" true
      let sk ← getBoolD kvs "spawn_kill" false
      let rtv ← getIntD kvs "root_tile_value" 2
      some { grid_size := gs, spawn_tile_count := stc,
             starting_tile_count := sts, win_tile_value := wtv,
             mutation_probability := mp, mutation_at_start := mas,
             spawn_kill := sk, root_tile_value := rtv }
    else none
  | _ => none

def parseIntsGo : List Json → Option (List Int)
  | [] => some []
  | Json.jint i :: rest => (parseIntsGo rest).map (fun l => i :: l)
  | _ => none

def parseIntList : Json → Option (List Int)
  | Json.jarr items => parseIntsGo items
  | _ => none

def parseRowsGo : List Json → Option (List (List Int))
  | [] => some []
  | j :: rest =>
    match parseIntList j with
    | none => none
    | some row => (parseRowsGo rest).map (fun l => row :: l)

/-- A JSON matrix of integers, as stored for `grid` and
`movement_matrix`. -/
def parseMatrix : Json → Option (List (List Int))
  | Json.jarr rows => parseRowsGo rows
  | _ => none

def parseLocsGo : List Json → Option (List PyPair)
  | [] => some []
  | Json.jnull :: rest => (parseLocsGo rest).map (fun l => PyPair.pynone :: l)
  | Json.jarr [Json.jint c, Json.jint r] :: rest =>
      (parseLocsGo rest).map (fun l => PyPair.lst c r :: l)
  | _ => none

/-- The parsed `latest_spawn_locations`: `json.loads` turns each stored
array into a Python *list*, never a tuple. -/
def parseLocs : Json → Option (List PyPair)
  | Json.jarr items => parseLocsGo items
  | _ => none

/-- What `json.loads` hands back for each saved spawn-location entry:
arrays (whether they came from tuples or lists) come back as lists. -/
def loadedPair : PyPair → PyPair
  | PyPair.tup c r => PyPair.lst c r
  | PyPair.lst c r => PyPair.lst c r
  | PyPair.pynone => PyPair.pynone

/-- `GameHelper.load(json_string)`: parse the snapshot, rebuild the config
with `GameConfig(**d)`, construct a fresh `Game(config)` — which spawns its
random initial tiles, supplied by the oracle `o` — then overwrite the grid
through `set_tiles` and assign score, movement matrix and the spawn
bookkeeping from the snapshot.  `none` models a raised `KeyError`,
`TypeError` or `IndexError`. -/
def load (j : Json) (o : Nat → SpawnDraw) : Option Game :=
  match j with
  | Json.jobj kvs => do
    let cfgJson ← jlookup kvs "config"
    let cfg ← configFromJson cfgJson
    let game0 := Game.init cfg o
    let gridJson ← jlookup kvs "grid"
    let gridVals ← parseMatrix gridJson
    let grid2 ← set_tiles cfg.grid_size.toNat game0.grid gridVals
    let scoreJson ← jlookup kvs "score"
    let score ← (match scoreJson with
      | Json.jint i => some i
      | _ => none)
    let mmJson ← jlookup kvs "movement_matrix"
    let mm ← parseMatrix mmJson
    let lsrJson ← jlookup kvs "latest_spawn_result"
    let lsr ← (match lsrJson with
      | Json.jnull => some (none : Option Bool)
      | Json.jbool b => some (some b)
      | _ => none)
    let lslJson ← jlookup kvs "latest_spawn_locations"
    let lsl ← parseLocs lslJson
    some { config := cfg
           init_mode := false
           grid := grid2
           score := score
           movement_matrix := mm
           latest_spawn_result := lsr
           latest_spawn_locations := lsl }
  | _ => none

theorem wf_of_lengths (n : Nat) (g : List (List Int)) (h1 : g.length = n)
    (h2 : ∀ r0 : Nat, r0 < n → (g.getD r0 []).length = n) : WFGrid n g := by
  refine ⟨h1, ?_⟩
  intro row hrow
  obtain ⟨r0, hr0, heq⟩ := List.mem_iff_getElem.1 hrow
  have h3 := h2 r0 (by omega)
  rw [List.getD_eq_getElem _ _ hr0, heq] at h3
  exact h3

theorem wf_lengths (n : Nat) (g : List (List Int)) (wf : WFGrid n g) :
    ∀ r0 : Nat, r0 < n → (g.getD r0 []).length = n := by
  intro r0 h
  have hl := wf.1
  apply wf.2
  apply getD_mem'
  omega

theorem wf_grid_set (n : Nat) (g : List (List Int)) (c r : Nat) (v : Int)
    (wf : WFGrid n g) : WFGrid n (grid_set g c r v) := by
  apply wf_of_lengths
  · rw [grid_set_len]
    exact wf.1
  · intro r0 h
    rw [grid_set_row_len]
    exact wf_lengths n g wf r0 h

theorem initial_spawn_go_wf (cfg : GameConfig) (n : Nat) (o : Nat → SpawnDraw) :
    ∀ (ks : List Nat) (g : List (List Int)) (acc : List PyPair),
    WFGrid n g → WFGrid n (initial_spawn_go cfg n o ks g acc).1 := by
  intro ks
  induction ks with
  | nil =>
    intro g acc h
    exact h
  | cons k rest ih =>
    intro g acc h
    rcases hsp : spawn_new_tile cfg true n g (o k) with _ | ⟨pos, g2⟩
    · simp only [initial_spawn_go, hsp]
      exact ih g _ h
    · simp only [initial_spawn_go, hsp]
      have hg2 : g2 = grid_set g pos.1 pos.2
          (get_new_tile_value cfg true (o k).rand) := by
        rw [spawn_new_tile] at hsp
        rcases hret : get_random_empty_tile n g (o k).pick with _ | pos2
        · rw [hret] at hsp
          exact absurd hsp (by simp)
        · rw [hret] at hsp
          simp only [Option.some.injEq, Prod.mk.injEq] at hsp
          rw [← hsp.2, ← hsp.1]
      apply ih
      rw [hg2]
      exact wf_grid_set n g pos.1 pos.2 _ h

/-- Whatever the randomness does, the grid of a freshly constructed game is
a well-formed `grid_size × grid_size` board. -/
theorem init_grid_wf (cfg : GameConfig) (o : Nat → SpawnDraw) :
    WFGrid cfg.grid_size.toNat (Game.init cfg o).grid := by
  apply initial_spawn_go_wf
  constructor
  · simp
  · intro row hrow
    rw [List.eq_of_mem_replicate hrow]
    simp

theorem parseIntsGo_inv (l : List Int) :
    parseIntsGo (l.map Json.jint) = some l := by
  induction l with
  | nil => rfl
  | cons x r ih =>
    simp only [List.map_cons, parseIntsGo, ih, Option.map_some']

theorem parseRowsGo_inv (g : List (List Int)) :
    parseRowsGo (g.map (fun row => Json.jarr (row.map Json.jint))) =
      some g := by
  induction g with
  | nil => rfl
  | cons row rest ih =>
    simp only [List.map_cons, parseRowsGo, parseIntList, parseIntsGo_inv,
      ih, Option.map_some']

theorem parseMatrix_inv (g : List (List Int)) :
    parseMatrix (Json.jarr (g.map (fun row => Json.jarr (row.map Json.jint))))
      = some g :=
  parseRowsGo_inv g

theorem parseLocsGo_inv (l : List PyPair) :
    parseLocsGo (l.map pairToJson) = some (l.map loadedPair) := by
  induction l with
  | nil => rfl
  | cons p rest ih =>
    cases p with
    | tup c r =>
      simp only [List.map_cons, pairToJson, parseLocsGo, ih,
        Option.map_some', loadedPair]
    | lst c r =>
      simp only [List.map_cons, pairToJson, parseLocsGo, ih,
        Option.map_some', loadedPair]
    | pynone =>
      simp only [List.map_cons, pairToJson, parseLocsGo, ih,
        Option.map_some', loadedPair]

theorem parseLocs_inv (l : List PyPair) :
    parseLocs (Json.jarr (l.map pairToJson)) = some (l.map loadedPair) :=
  parseLocsGo_inv l

theorem configFromJson_inv (cfg : GameConfig) :
    configFromJson (configToJson cfg) = some cfg := rfl

theorem pairToJson_loaded (p : PyPair) :
    pairToJson (loadedPair p) = pairToJson p := by
  cases p <;> rfl

/-- Loading a saved snapshot reproduces every field of the saved state —
except that the spawn locations come back as Python lists (`loadedPair`)
rather than tuples — independently of the randomness consumed by the
intermediate `Game(config)` construction, whose grid is fully overwritten
by `set_tiles`. -/
theorem load_to_dict (g : Game) (o : Nat → SpawnDraw)
    (hwf : WFGrid g.config.grid_size.toNat g.grid) :
    load (to_dict g) o = some
      { config := g.config
        init_mode := false
        grid := g.grid
        score := g.score
        movement_matrix := g.movement_matrix
        latest_spawn_result := g.latest_spawn_result
        latest_spawn_locations := g.latest_spawn_locations.map loadedPair } := by
  obtain ⟨cfg, im, grid, sc, mm, lsr, lsl⟩ := g
  have hwf2 : WFGrid cfg.grid_size.toNat grid := hwf
  have hset : set_tiles cfg.grid_size.toNat (Game.init cfg o).grid grid =
      some grid := set_tiles_full _ _ _ (init_grid_wf cfg o) hwf2
  cases lsr with
  | none =>
    simp [load, to_dict, jlookup, configFromJson_inv, parseMatrix_inv, hset,
      parseLocs_inv]
  | some b =>
    simp [load, to_dict, jlookup, configFromJson_inv, parseMatrix_inv, hset,
      parseLocs_inv]

/-- C6 (amended): for every game whose board is well-formed, serializing,
loading and serializing again is byte-identical (the two snapshots are the
same tree, hence the same string under any float printing), and the loaded
game agrees with the saved one on the config, grid values, score, movement
matrix and spawn result; the spawn-location pairs keep their coordinates
but come back as Python lists, so a state holding tuples is not reproduced
identically. -/
theorem claim_C6 (g : Game) (o : Nat → SpawnDraw)
    (hwf : WFGrid g.config.grid_size.toNat g.grid) :
    ∃ g2, load (to_dict g) o = some g2 ∧
      to_dict g2 = to_dict g ∧
      (∀ fser : Rat → String,
        dumps fser (to_dict g2) = dumps fser (to_dict g)) ∧
      g2.config = g.config ∧ g2.grid = g.grid ∧ g2.score = g.score ∧
      g2.movement_matrix = g.movement_matrix ∧
      g2.latest_spawn_result = g.latest_spawn_result ∧
      g2.latest_spawn_locations = g.latest_spawn_locations.map loadedPair := by
  have htree : to_dict
      { config := g.config
        init_mode := false
        grid := g.grid
        score := g.score
        movement_matrix := g.movement_matrix
        latest_spawn_result := g.latest_spawn_result
        latest_spawn_locations := g.latest_spawn_locations.map loadedPair } =
      to_dict g := by
    have hloc : ((g.latest_spawn_locations.map loadedPair).map pairToJson) =
        g.latest_spawn_locations.map pairToJson := by
      rw [List.map_map]
      exact List.map_congr_left (fun p _ => by
        simp only [Function.comp_apply]
        exact pairToJson_loaded p)
    simp only [to_dict]
    rw [hloc]
  exact ⟨_, load_to_dict g o hwf, htree,
    fun fser => congrArg (dumps fser) htree, rfl, rfl, rfl, rfl, rfl, rfl⟩

/-- A state as it looks right after construction: two spawned tiles whose
positions were recorded as Python tuples. -/
def c6Game : Game :=
  { config := {}
    init_mode := false
    grid := [[2, 0, 0, 0], [0, 0, 0, 0], [0, 0, 0, 2], [0, 0, 0, 0]]
    score := 0
    movement_matrix := [[0, 0, 0, 0], [0, 0, 0, 0], [0, 0, 0, 0],
      [0, 0, 0, 0]]
    latest_spawn_result := none
    latest_spawn_locations := [PyPair.tup 0 0, PyPair.tup 3 2] }

/-- C6 (counterexample): saving `c6Game` and loading the snapshot yields a
game whose `latest_spawn_locations` is NOT equal to the saved one — the
tuples `(0,0)` and `(3,2)` come back as the lists `[0,0]` and `[3,2]`, and
Python equality distinguishes a tuple from a list. -/
theorem claim_C6_counterexample :
    ∃ g2, load (to_dict c6Game) (fun _ => ⟨0, 1 / 2⟩) = some g2 ∧
      g2.latest_spawn_locations ≠ c6Game.latest_spawn_locations :=
  ⟨_, load_to_dict c6Game (fun _ => ⟨0, 1 / 2⟩) (by decide), by decide⟩

theorem claim_C6_witness :
    ∃ g2, load (to_dict c6Game) (fun _ => ⟨0, 1 / 2⟩) = some g2 ∧
      to_dict g2 = to_dict c6Game ∧
      (∀ fser : Rat → String,
        dumps fser (to_dict g2) = dumps fser (to_dict c6Game)) ∧
      g2.config = c6Game.config ∧ g2.grid = c6Game.grid ∧
      g2.score = c6Game.score ∧
      g2.movement_matrix = c6Game.movement_matrix ∧
      g2.latest_spawn_result = c6Game.latest_spawn_result ∧
      g2.latest_spawn_locations =
        c6Game.latest_spawn_locations.map loadedPair :=
  claim_C6 c6Game (fun _ => ⟨0, 1 / 2⟩) (by decide)

def zeroRowJson : Json :=
  Json.jarr [Json.jint 0, Json.jint 0, Json.jint 0, Json.jint 0]

def zeroMatrixJson : Json :=
  Json.jarr [zeroRowJson, zeroRowJson, zeroRowJson, zeroRowJson]

/-- A persisted snapshot whose config record is the empty object `{}`. -/
def c8MissingFields : Json :=
  Json.jobj
    [("config", Json.jobj []),
     ("grid", zeroMatrixJson),
     ("score", Json.jint 0),
     ("movement_matrix", zeroMatrixJson),
     ("latest_spawn_result", Json.jnull),
     ("latest_spawn_locations", Json.jarr [])]

/-- A persisted snapshot whose config carries the out-of-range
`mutation_probability = 5`. -/
def c8OutOfRange : Json :=
  Json.jobj
    [("config", configToJson { mutation_probability := 5 }),
     ("grid", zeroMatrixJson),
     ("score", Json.jint 0),
     ("movement_matrix", zeroMatrixJson),
     ("latest_spawn_result", Json.jnull),
     ("latest_spawn_locations", Json.jarr [])]

def zeros4 : List (List Int) :=
  [[0, 0, 0, 0], [0, 0, 0, 0], [0, 0, 0, 0], [0, 0, 0, 0]]

/-- The state `GameHelper.load` produces from the all-zero snapshots used
below. -/
def c8LoadedGame (cfg : GameConfig) : Game :=
  { config := cfg
    init_mode := false
    grid := zeros4
    score := 0
    movement_matrix := zeros4
    latest_spawn_result := none
    latest_spawn_locations := [] }

/-- C8 (amended): `GameHelper.load` does not validate the persisted state:
a config record with missing fields is silently completed with the
dataclass defaults (here the empty record loads as the default config),
and out-of-range values such as `mutation_probability = 5` are stored
unchanged — no data-validation error exists, whatever the randomness of the
intermediate construction. -/
theorem claim_C8 (o : Nat → SpawnDraw) :
    (∃ g2, load c8MissingFields o = some g2 ∧
      g2.config = ({} : GameConfig)) ∧
    (∃ g3, load c8OutOfRange o = some g3 ∧
      g3.config.mutation_probability = 5 ∧
      ¬ g3.config.mutation_probability ≤ 1) := by
  have hzm : parseMatrix zeroMatrixJson =
      some [[0, 0, 0, 0], [0, 0, 0, 0], [0, 0, 0, 0], [0, 0, 0, 0]] := rfl
  have hset : set_tiles (({} : GameConfig).grid_size.toNat)
      (Game.init {} o).grid
      [[0, 0, 0, 0], [0, 0, 0, 0], [0, 0, 0, 0], [0, 0, 0, 0]] =
      some [[0, 0, 0, 0], [0, 0, 0, 0], [0, 0, 0, 0], [0, 0, 0, 0]] :=
    set_tiles_full _ _ _ (init_grid_wf {} o) (by decide)
  have hset5 : set_tiles
      (({ mutation_probability := 5 } : GameConfig).grid_size.toNat)
      (Game.init { mutation_probability := 5 } o).grid
      [[0, 0, 0, 0], [0, 0, 0, 0], [0, 0, 0, 0], [0, 0, 0, 0]] =
      some [[0, 0, 0, 0], [0, 0, 0, 0], [0, 0, 0, 0], [0, 0, 0, 0]] :=
    set_tiles_full _ _ _ (init_grid_wf { mutation_probability := 5 } o)
      (by decide)
  simp at hset hset5
  constructor
  · refine ⟨c8LoadedGame {}, ?_, rfl⟩
    simp [load, c8MissingFields, c8LoadedGame, zeros4, jlookup, hzm, hset,
      show configFromJson (Json.jobj []) = some {} from rfl,
      show parseLocs (Json.jarr []) = some [] from rfl]
  · refine ⟨c8LoadedGame { mutation_probability := 5 }, ?_, rfl,
      by norm_num [c8LoadedGame]⟩
    simp [load, c8OutOfRange, c8LoadedGame, zeros4, jlookup, hzm, hset5,
      configFromJson_inv,
      show parseLocs (Json.jarr []) = some [] from rfl]

/-- C8 (counterexample): loading a snapshot whose config record is missing
every field does not fail — it returns a `Game` whose config is the
dataclass-default `GameConfig` (grid_size 4, root 2, probability 0.1), the
opposite of being rejected with a data-validation error. -/
theorem claim_C8_counterexample :
    ∃ g2, load c8MissingFields (fun _ => ⟨0, 1 / 2⟩) = some g2 ∧
      g2.config = ({} : GameConfig) ∧ ({} : GameConfig).grid_size = 4 := by
  have hset : set_tiles (({} : GameConfig).grid_size.toNat)
      (Game.init {} (fun _ => ⟨0, 1 / 2⟩)).grid
      [[0, 0, 0, 0], [0, 0, 0, 0], [0, 0, 0, 0], [0, 0, 0, 0]] =
      some [[0, 0, 0, 0], [0, 0, 0, 0], [0, 0, 0, 0], [0, 0, 0, 0]] :=
    set_tiles_full _ _ _ (init_grid_wf {} (fun _ => ⟨0, 1 / 2⟩)) (by decide)
  simp at hset
  refine ⟨c8LoadedGame {}, ?_, rfl, rfl⟩
  simp [load, c8MissingFields, c8LoadedGame, zeros4, jlookup,
    show parseMatrix zeroMatrixJson =
      some [[0, 0, 0, 0], [0, 0, 0, 0], [0, 0, 0, 0], [0, 0, 0, 0]] from rfl,
    hset,
    show configFromJson (Json.jobj []) = some {} from rfl,
    show parseLocs (Json.jarr []) = some [] from rfl]

/-- The 4×4 state of the worked example, with the default config
(`grid_size = 4`, `root_tile_value = 2`). -/
def c2Game : Game :=
  { config := {}
    init_mode := false
    grid := [[2, 2, 2, 2], [0, 0, 0, 0], [0, 0, 4, 0], [2, 2, 0, 2]]
    score := 0
    movement_matrix := zeros4
    latest_spawn_result := none
    latest_spawn_locations := [] }

/-- C2: on a 4×4 game with `root_tile_value = 2` holding the grid
`[[2,2,2,2],[0,0,0,0],[0,0,4,0],[2,2,0,2]]`, `slide_tiles(UP)` produces the
grid `[[4,4,2,4],[0,0,4,0],[0,0,0,0],[0,0,0,0]]` and a movement matrix
whose entry at row 3, column 0 is `-3` (both for the raw line computation
and for the game-level state update). -/
theorem claim_C2 :
    ((slide_tiles 2 4 SlideDirection.UP
        [[2, 2, 2, 2], [0, 0, 0, 0], [0, 0, 4, 0], [2, 2, 0, 2]]).1 =
      [[4, 4, 2, 4], [0, 0, 4, 0], [0, 0, 0, 0], [0, 0, 0, 0]] ∧
    (((slide_tiles 2 4 SlideDirection.UP
        [[2, 2, 2, 2], [0, 0, 0, 0], [0, 0, 4, 0], [2, 2, 0, 2]]).2.1.getD 3
          []).getD 0 0) = -3) ∧
    ∃ g1, slide_tiles_game SlideDirection.UP c2Game = some g1 ∧
      g1.grid = [[4, 4, 2, 4], [0, 0, 4, 0], [0, 0, 0, 0], [0, 0, 0, 0]] ∧
      ((g1.movement_matrix.getD 3 []).getD 0 0) = -3 := by
  exact ⟨⟨rfl, rfl⟩, ⟨_, rfl, rfl, rfl⟩⟩

end TwentyFortyEight
